import Mathlib

/-!
Verification development for the `mongodb-dumper` repository.

The file shallowly embeds the translation core of the repository
(`mongodb/dumper.go`, given here as `src/unnamed/part_000`):

* `SimplifyMap`   — the value normalizer (`simplifyEntries` / `simplifyFullE`);
* `BadgerItrToJSON` — the prefix dispatcher (`badgerItrToJSON`);
* `SyncingService.Start` — the sync loop (`runScan` / `passEvents` / `syncTrace`).

Modelling conventions:
* Go byte strings (keys, values, `string(b)` results that must stay
  byte-faithful) are `List Nat`; human-readable Go string literals are
  Lean `String` literals.
* Go `map[string]interface{}` values are association lists (`Entries`);
  the model processes the entries of one snapshot of the map in list
  order (the Go map iteration order is unspecified; every per-entry action of
  `SimplifyMap` touches only its own key, apart from the `ParentHash`
  flattening, so the order is immaterial to the claims below).
* A Go panic (failed type assertion, nil dereference, out-of-range
  slice) is `Except.error ()`; "no document" is `.ok none`.
* External `lib.*` / `gob` / `structs.Map` functions from the
  `deso-protocol/core` dependency (not part of this repository) are
  fields of a `Decoders` parameter: every theorem is quantified over
  them, and witnesses instantiate a trivial record.
* `json.Marshal` followed by `json.Unmarshal` on the produced document
  is modelled as the identity on the field map.
-/

/-- Go slice expression `l[a:b]`: panics (`.error`) when the bounds are
out of range, otherwise yields the sub-list. -/
def gslice (l : List Nat) (a b : Nat) : Except Unit (List Nat) :=
  if a ≤ b ∧ b ≤ l.length then .ok ((l.drop a).take (b - a)) else .error ()

/-- Go slice expression `l[a:]`. -/
def gsliceFrom (l : List Nat) (a : Nat) : Except Unit (List Nat) :=
  if a ≤ l.length then .ok (l.drop a) else .error ()

/-- Go `copy(dst[:], src)` into a zero-initialised 32-byte array
(`lib.BlockHash`): the first 32 bytes of `src`, zero-padded. -/
def fix32 (b : List Nat) : List Nat :=
  (b ++ List.replicate 32 0).take 32

/-- `binary.BigEndian.Uint32(b)`: panics when `b` has fewer than 4
bytes, otherwise reads the first 4 bytes big-endian. -/
def beUint32 (b : List Nat) : Except Unit Nat :=
  if b.length < 4 then .error ()
  else .ok (b.take 4 |>.foldl (fun acc x => acc * 256 + x % 256) 0)

mutual
/-- A Go `interface{}` value as it occurs in the document maps built by
the dispatcher: JSON primitives plus the domain types that
the type switch of `SimplifyMap` inspects (`lib.UtxoType`, `lib.BlockHash`,
`*lib.BlockHash`, `*lib.BlockNode`, `*big.Int`, `lib.StakeEntry`,
`*lib.PKID`).  `vBlockHashPtr none` / `vBigInt none` / `vPKIDPtr none`
are typed nil pointers; `vNull` is the untyped nil interface.
`vBlockNodePtr p` carries only the hash bytes of the parent block, the one
field the normalizer reads. -/
inductive Value where
  | vNull : Value
  | vStr (s : String) : Value
  | vNat (n : Nat) : Value
  | vBytes (b : List Nat) : Value
  | vList (l : List Value) : Value
  | vMap (m : Entries) : Value
  | vUtxoType (u : Nat) : Value
  | vBlockHash (h : List Nat) : Value
  | vBlockHashPtr (h : Option (List Nat)) : Value
  | vBlockNodePtr (parentHash : Option (Option (List Nat))) : Value
  | vBigInt (i : Option Int) : Value
  | vStakeEntry : Value
  | vPKIDPtr (b : Option (List Nat)) : Value

/-- A Go `map[string]interface{}` as an association list of fields. -/
inductive Entries where
  | nil : Entries
  | cons (k : String) (v : Value) (rest : Entries) : Entries
end

namespace Entries

/-- List append on field maps. -/
def append : Entries → Entries → Entries
  | .nil, e => e
  | .cons k v r, e => .cons k v (append r e)

/-- Lookup of the first binding of a field name. -/
def lookupE (k : String) : Entries → Option Value
  | .nil => none
  | .cons k' v r => if k' = k then some v else lookupE k r

/-- Membership of a field name. -/
def hasKey (k : String) : Entries → Bool
  | .nil => false
  | .cons k' _ r => k' = k || hasKey k r

/-- Replace the value of every binding of `k`. -/
def replaceAll (k : String) (v : Value) : Entries → Entries
  | .nil => .nil
  | .cons k' v' r => .cons k' (if k' = k then v else v') (replaceAll k v r)

/-- Go map assignment `m[k] = v` on the association-list model: replace
the value bound to `k` (a Go map holds at most one binding per key), or
append a new binding when the key is absent. -/
def setKeyE (k : String) (v : Value) (m : Entries) : Entries :=
  if m.hasKey k then m.replaceAll k v else m.append (.cons k v .nil)

end Entries

/-- External functions from the `deso-protocol/core` library (and Go
standard library codecs) that the dispatcher and normalizer call.  They
are not part of this repository; theorems quantify over an arbitrary
instance.  A `decode*` field models one structured deserialization
(`FromBytes`, `DeserializeBlockNode`, or a `gob` decode followed by
`structs.Map`): `none` is a decode error, `some m` the resulting field
map. -/
structure Decoders where
  decodeMsgBlock : List Nat → Option Entries
  decodeBlockNode : List Nat → Option Entries
  decodeUtxoEntry : List Nat → Option Entries
  decodeUtxoKey : List Nat → Option Entries
  decodeMessageEntry : List Nat → Option Entries
  decodeTransactionMetadata : List Nat → Option Entries
  decodePostEntry : List Nat → Option Entries
  decodeProfileEntry : List Nat → Option Entries
  decodeBalanceEntry : List Nat → Option Entries
  decodePKIDEntry : List Nat → Option Entries
  decodeRecloutEntry : List Nat → Option Entries
  decodeGlobalParams : List Nat → Option Entries
  pkToStringBoth : List Nat → String
  blockHashString : List Nat → String
  utxoTypeString : Nat → String
  hexEncode : List Nat → String
  bytesToString : List Nat → String
  bigIntString : Int → String
  decodeUint64 : List Nat → Nat

/-- The field names of the nine-name public-key case of `SimplifyMap`. -/
def pubKeyNames : List String :=
  ["PosterPublicKey", "FollowedPublicKey", "FollowedPKID", "FollowerPKID",
   "FollowedPublicKeys", "HoldingPublicKey", "PublicKey", "SenderPublicKey",
   "RecipientPublicKey"]

/-- The field names of the `string(...)` text cases of `SimplifyMap`. -/
def textNames : List String :=
  ["Body", "EncryptedText", "Username", "Description", "ProfilePic"]

/-- The `val == nil` guard of `SimplifyMap`: only the untyped nil
interface compares equal to `nil`. -/
def Value.isNull : Value → Bool
  | .vNull => true
  | _ => false

/-- Go type assertion `x.([]byte)` on the current (possibly deleted)
map value: panics unless the value is an actual byte slice. -/
def assertBytes : Option Value → Except Unit (List Nat)
  | some (.vBytes b) => .ok b
  | _ => .error ()

/-- The `"Header"` key-switch case of `SimplifyMap`, for one named
hash sub-field: already a string ⇒ untouched; a non-nil `*lib.BlockHash`
⇒ its string form; anything else (missing field, typed nil pointer,
other type) panics on the `.(*lib.BlockHash)` assertion or the nil
`String()` call. -/
def fixHash (d : Decoders) (k : String) (m : Entries) : Except Unit Entries :=
  match m.lookupE k with
  | some (.vStr _) => .ok m
  | some (.vBlockHashPtr (some h)) =>
      .ok (m.setKeyE k (.vStr (d.blockHashString h)))
  | _ => .error ()

/-- The `"HODLerPKID"` / `"CreatorPKID"` key-switch case: asserts the
original value is a `*lib.PKID` (`val.(*lib.PKID)`); a typed nil
pointer panics in `len(*pkp)`. -/
def pkidPtrCase (d : Decoders) (orig : Value) : Except Unit (Option Value) :=
  match orig with
  | .vPKIDPtr (some b) => .ok (some (.vStr (d.pkToStringBoth b)))
  | _ => .error ()

/-- The `"Header"` key-switch case: asserts the current value is a
sub-map and coerces its two hash fields. -/
def headerCase (d : Decoders) (cur : Option Value) :
    Except Unit (Option Value) :=
  match cur with
  | some (.vMap subm) => do
      let s1 ← fixHash d "PrevBlockHash" subm
      let s2 ← fixHash d "TransactionMerkleRoot" s1
      .ok (some (.vMap s2))
  | _ => .error ()

/-- The `"Txns"` key-switch case: asserts the current value is a
`[]interface{}` slice and keeps it. -/
def txnsCase (cur : Option Value) : Except Unit (Option Value) :=
  match cur with
  | some (.vList l) => .ok (some (.vList l))
  | _ => .error ()

/-- The key switch of `SimplifyMap`: `orig` is the value seen by the
`range` statement, `cur` the value currently bound to the key (`none`
when the type switch deleted it).  Returns the final binding for the
key. -/
def keySwitch (d : Decoders) (k : String) (orig : Value)
    (cur : Option Value) : Except Unit (Option Value) :=
  if k = "PKID" then do
    let b ← assertBytes cur
    .ok (some (.vStr (d.pkToStringBoth b)))
  else if k = "HODLerPKID" ∨ k = "CreatorPKID" then
    pkidPtrCase d orig
  else if k ∈ pubKeyNames then do
    let b ← assertBytes cur
    .ok (some (.vStr (d.pkToStringBoth b)))
  else if k = "ParentStakeID" then do
    let b ← assertBytes cur
    .ok (some (.vStr (d.hexEncode b)))
  else if k ∈ textNames then do
    let b ← assertBytes cur
    .ok (some (.vStr (d.bytesToString b)))
  else if k = "Header" then
    headerCase d cur
  else if k = "Txns" then
    txnsCase cur
  else .ok cur

mutual

/-- One step of the `range` loop body of `SimplifyMap` for the entry
`(k, v)`: the nil-skip guard, then the type switch, then the key
switch.  Returns the entries this key contributes to the rewritten map
(empty when deleted, the flattened `ParentHash` entry for
`*lib.BlockNode`). -/
def simplifyEntry (d : Decoders) (t : String) (k : String) (v : Value) :
    Except Unit Entries :=
  if v.isNull then .ok (.cons k .vNull .nil)
  else do
      let ts ← typeSwitch d t v
      match ts with
      | .inl cur => do
          let fin ← keySwitch d k v (some cur)
          .ok (match fin with
               | none => .nil
               | some v' => .cons k v' .nil)
      | .inr extra => do
          let fin ← keySwitch d k v none
          .ok (Entries.append extra (match fin with
               | none => .nil
               | some v' => .cons k v' .nil))
termination_by (sizeOf v, 1)

/-- The type switch of `SimplifyMap`: `inl cur` is the value now bound
to the key, `inr extra` means the key was deleted and `extra` holds the
replacement entries (the `ParentHash` flattening for `*lib.BlockNode`,
nothing for `lib.StakeEntry`). -/
def typeSwitch (d : Decoders) (t : String) (v : Value) :
    Except Unit (Value ⊕ Entries) :=
  match v with
  | .vMap m => do
      let m' ← simplifyEntries d t m
      .ok (.inl (.vMap (m'.setKeyE "Time" (.vStr t))))
  | .vUtxoType u => .ok (.inl (.vStr (d.utxoTypeString u)))
  | .vBlockHash h => .ok (.inl (.vStr (d.blockHashString h)))
  | .vBlockHashPtr none => .ok (.inl .vNull)
  | .vBlockHashPtr (some h) => .ok (.inl (.vStr (d.blockHashString h)))
  | .vBlockNodePtr none => .ok (.inr (.cons "ParentHash" .vNull .nil))
  | .vBlockNodePtr (some none) => .error ()
  | .vBlockNodePtr (some (some h)) =>
      .ok (.inr (.cons "ParentHash" (.vStr (d.blockHashString h)) .nil))
  | .vBigInt none => .ok (.inl .vNull)
  | .vBigInt (some i) => .ok (.inl (.vStr (d.bigIntString i)))
  | .vStakeEntry => .ok (.inr .nil)
  | v' => .ok (.inl v')
termination_by (sizeOf v, 0)

/-- The `range` loop of `SimplifyMap` over the entries of the map (one
snapshot, processed in order). -/
def simplifyEntries (d : Decoders) (t : String) : Entries → Except Unit Entries
  | .nil => .ok .nil
  | .cons k v r => do
      let e ← simplifyEntry d t k v
      let r' ← simplifyEntries d t r
      .ok (e.append r')
termination_by m => (sizeOf m, 2)

end

/-- `SimplifyMap`: rewrite every entry, then set the `Time` field to
the current wall-clock string `t`. -/
def simplifyFullE (d : Decoders) (t : String) (m : Entries) :
    Except Unit Entries := do
  let e ← simplifyEntries d t m
  .ok (e.setKeyE "Time" (.vStr t))

/-- The `lib.BlockHash` target of badger `ValueCopy(ret[:])` calls:
badger copies into the supplied 32-byte buffer only when the value fits
(`y.SafeCopy`), otherwise it allocates a fresh buffer and the local
array keeps its zeros. -/
def valHash32 (val : List Nat) : List Nat :=
  if val.length ≤ 32 then fix32 val else List.replicate 32 0

/-- `BadgerItrToJSON`: the prefix dispatcher.  `key`/`val` are the raw
record bytes, `t` the wall-clock string that `time.Now().String()`
returns during this invocation.  `.ok none` models the `return nil`
paths (unknown tag, decode failure), `.error ()` a Go panic. -/
def badgerItrToJSON (d : Decoders) (key val : List Nat) (t : String) :
    Except Unit (Option Entries) :=
  match key with
  | [] => .error ()
  | tag :: rest =>
    match tag with
    | 0 => -- _PrefixBlockHashToBlock
      match d.decodeMsgBlock val with
      | none => .ok none
      | some m => do
          let m2 ← simplifyFullE d t
            (m.setKeyE "BlockHash" (.vBlockHash (fix32 rest)))
          .ok (some ((m2.setKeyE "MongoMeta"
            (.vStr "A bitclout block and its corresponding blockhash.")).setKeyE
            "BadgerKeyPrefix" (.vStr "_PrefixBlockHashToBlock:0")))
    | 1 => -- _PrefixHeightHashToNodeInfo
      match d.decodeBlockNode val with
      | none => .ok none
      | some m => do
          let m2 ← simplifyFullE d t m
          .ok (some ((m2.setKeyE "MongoMeta"
            (.vStr "A block node in the bitclout blockchain graph.")).setKeyE
            "BadgerKeyPrefix" (.vStr "_PrefixHeightHashToNodeInfo:1")))
    | 2 => -- _PrefixBitcoinHeightHashToNodeInfo
      match d.decodeBlockNode val with
      | none => .ok none
      | some m => do
          let m2 ← simplifyFullE d t m
          .ok (some ((m2.setKeyE "MongoMeta"
            (.vStr "A block node in the bitcoin blockchain graph.")).setKeyE
            "BadgerKeyPrefix" (.vStr "_PrefixBitcoinHeightHashToNodeInfo:2")))
    | 3 => -- _KeyBestBitCloutBlockHash
      .ok (some (.cons "Hash" (.vStr (d.blockHashString (valHash32 val)))
        (.cons "MongoMeta"
          (.vStr "The hash of the front of the best BitClout Chain.")
        (.cons "BadgerKeyPrefix" (.vStr "_KeyBestBitCloutBlockHash:3")
        (.cons "Time" (.vStr t) .nil)))))
    | 4 => -- _KeyBestBitcoinHeaderHash
      .ok (some (.cons "Hash" (.vStr (d.blockHashString (valHash32 val)))
        (.cons "MongoMeta"
          (.vStr "The hash of the front of the best Bitcoin Chain.")
        (.cons "BadgerKeyPrefix" (.vStr "_KeyBestBitcoinHeaderHash:4")
        (.cons "Time" (.vStr t) .nil)))))
    | 5 => -- _PrefixUtxoKeyToUtxoEntry
      match d.decodeUtxoEntry val with
      | none => .ok none
      | some m => do
          let m2 ← simplifyFullE d t m
          .ok (some ((m2.setKeyE "MongoMeta" (.vStr "A UTXO Entry.")).setKeyE
            "BadgerKeyPrefix" (.vStr "_PrefixUtxoKeyToUtxoEntry:5")))
    | 6 => -- _PrefixPositionToUtxoKey
      match d.decodeUtxoKey val with
      | none => .ok none
      | some m => do
          let m2 ← simplifyFullE d t m
          .ok (some ((m2.setKeyE "MongoMeta" (.vStr "A UTXO Key.")).setKeyE
            "BadgerKeyPrefix" (.vStr "_PrefixPositionToUtxoKey:6")))
    | 7 => -- _PrefixPubKeyUtxoKey
      match gslice key 1 34, gslice key 34 66, gsliceFrom key 66 with
      | .ok pubKey, .ok hashBytes, .ok tailBytes =>
        (match beUint32 tailBytes with
         | .ok index => do
             let m2 ← simplifyFullE d t
               (.cons "TxID" (.vBlockHash (fix32 hashBytes))
               (.cons "Index" (.vNat index)
               (.cons "PublicKey" (.vBytes pubKey) .nil)))
             .ok (some ((m2.setKeyE "MongoMeta"
               (.vStr "Public key and UTXO key.")).setKeyE
               "BadgerKeyPrefix" (.vStr "_PrefixPubKeyUtxoKey:7")))
         | .error _ => .error ())
      | _, _, _ => .error ()
    | 8 => -- _KeyUtxoNumEntries
      .ok (some (.cons "UTXOs" (.vNat (d.decodeUint64 val))
        (.cons "MongoMeta"
          (.vStr "The number of utxo entries in the database.")
        (.cons "BadgerKeyPrefix" (.vStr "_KeyUtxoNumEntries:8")
        (.cons "Time" (.vStr t) .nil)))))
    | 9 => -- _PrefixBlockHashToUtxoOperations
      .ok (some (.cons "BadgerKeyPrefix"
        (.vStr "_PrefixBlockHashToUtxoOperations:9")
        (.cons "Time" (.vStr t) .nil)))
    | 10 => -- _KeyNanosPurchased
      .ok (some (.cons "Nanos" (.vNat (d.decodeUint64 val))
        (.cons "MongoMeta" (.vStr "The number of nanos purchased thus far.")
        (.cons "BadgerKeyPrefix" (.vStr "_KeyNanosPurchased:10")
        (.cons "Time" (.vStr t) .nil)))))
    | 11 => -- _PrefixBitcoinBurnTxIDs
      do
        let m2 ← simplifyFullE d t
          (.cons "TxID" (.vBlockHash (fix32 rest))
          (.cons "MongoMeta" (.vStr "A processed bitcoin transaction.")
          (.cons "BadgerKeyPrefix" (.vStr "_PrefixBitcoinBurnTxIDs:11")
          (.cons "Time" (.vStr t) .nil))))
        .ok (some m2)
    | 12 => -- _PrefixPublicKeyTimestampToPrivateMessage
      match d.decodeMessageEntry val with
      | none => .ok none
      | some m => do
          let m2 ← simplifyFullE d t m
          .ok (some ((m2.setKeyE "MongoMeta"
            (.vStr "An encrypted message between two users.")).setKeyE
            "BadgerKeyPrefix"
            (.vStr "_PrefixPublicKeyTimestampToPrivateMessage:12")))
    | 13 => -- _KeyAccountData
      .ok (some (.cons "BadgerKeyPrefix" (.vStr "_KeyAccountData:13")
        (.cons "Time" (.vStr t) .nil)))
    | 14 => -- _KeyTransactionIndexTip: `var ret *lib.BlockHash` is nil and
      -- `ret[:]` dereferences it before anything else runs.
      .error ()
    | 15 => -- _PrefixTransactionIDToMetadata
      match d.decodeTransactionMetadata val with
      | none => .ok none
      | some m => do
          let m2 ← simplifyFullE d t m
          .ok (some ((m2.setKeyE "MongoMeta"
            (.vStr "The transaction metadata for a particular transaction ID.")).setKeyE
            "BadgerKeyPrefix" (.vStr "_PrefixTransactionIDToMetadata:15")))
    | 16 => -- _PrefixPublicKeyIndexToTransactionIDs (placeholder body)
      .ok (some (.cons "BadgerKeyPrefix" (.vStr "_KeyAccountData:13")
        (.cons "Time" (.vStr t) .nil)))
    | 17 => -- _PrefixPostHashToPostEntry
      match d.decodePostEntry val with
      | none => .ok none
      | some m => do
          let m2 ← simplifyFullE d t m
          .ok (some ((m2.setKeyE "MongoMeta"
            (.vStr "A User\x27s Post or Subcomment.")).setKeyE
            "BadgerKeyPrefix" (.vStr "_PrefixPostHashToPostEntry:17")))
    | 18 => -- _PrefixPosterPublicKeyPostHash
      match gsliceFrom key 34, gslice key 1 34 with
      | .ok tailBytes, .ok pk =>
        do
          let m2 ← simplifyFullE d t
            (.cons "PublicKey" (.vBytes pk)
            (.cons "PostHash" (.vBlockHash (fix32 tailBytes))
            (.cons "MongoMeta"
              (.vStr "An association between a PostHash and its corresponding public key.")
            (.cons "BadgerKeyPrefix"
              (.vStr "_PrefixPosterPublicKeyPostHash:18") .nil))))
          .ok (some m2)
      | _, _ => .error ()
    | 19 => -- _PrefixTstampNanosPostHash
      match gsliceFrom key 9, gslice key 1 9 with
      | .ok tailBytes, .ok stampBytes =>
        do
          let m2 ← simplifyFullE d t
            (.cons "TstampNanos" (.vNat (d.decodeUint64 stampBytes))
            (.cons "PostHash" (.vBlockHash (fix32 tailBytes))
            (.cons "MongoMeta"
              (.vStr "An association between a PostHash and its corresponding time stamp (in nanos).")
            (.cons "BadgerKeyPrefix"
              (.vStr "_PrefixTstampNanosPostHash:19") .nil))))
          .ok (some m2)
      | _, _ => .error ()
    | 20 => -- _PrefixCreatorBpsPostHash
      match gsliceFrom key 9, gslice key 1 9 with
      | .ok tailBytes, .ok stampBytes =>
        do
          let m2 ← simplifyFullE d t
            (.cons "TstampNanos" (.vNat (d.decodeUint64 stampBytes))
            (.cons "PostHash" (.vBlockHash (fix32 tailBytes))
            (.cons "MongoMeta"
              (.vStr "An association between a PostHash and its corresponding creator basis points founder reward.")
            (.cons "BadgerKeyPrefix"
              (.vStr "_PrefixCreatorBpsPostHash:20") .nil))))
          .ok (some m2)
      | _, _ => .error ()
    | 21 => -- _PrefixMultipleBpsPostHash
      match gsliceFrom key 9, gslice key 1 9 with
      | .ok tailBytes, .ok stampBytes =>
        do
          let m2 ← simplifyFullE d t
            (.cons "TstampNanos" (.vNat (d.decodeUint64 stampBytes))
            (.cons "PostHash" (.vBlockHash (fix32 tailBytes))
            (.cons "MongoMeta"
              (.vStr "An association between a PostHash and its multiplier basis points.")
            (.cons "BadgerKeyPrefix"
              (.vStr "_PrefixMultipleBpsPostHash:21") .nil))))
          .ok (some m2)
      | _, _ => .error ()
    | 22 => -- _PrefixCommentParentStakeIDToPostHash
      match gsliceFrom key 42, gslice key 1 34, gslice key 34 42 with
      | .ok tailBytes, .ok stakeID, .ok stampBytes =>
        do
          let m2 ← simplifyFullE d t
            (.cons "ParentStakeID" (.vBytes stakeID)
            (.cons "TstampNanos" (.vNat (d.decodeUint64 stampBytes))
            (.cons "PostHash" (.vBlockHash (fix32 tailBytes))
            (.cons "MongoMeta"
              (.vStr "An association between a comment PostHash and it\x27s corresponding parent post stakeID.")
            (.cons "BadgerKeyPrefix"
              (.vStr "_PrefixCommentParentStakeIDToPostHash:22") .nil)))))
          .ok (some m2)
      | _, _, _ => .error ()
    | 23 => -- _PrefixPKIDToProfileEntry
      match d.decodeProfileEntry val with
      | none => .ok none
      | some m => do
          let m2 ← simplifyFullE d t m
          .ok (some ((m2.setKeyE "MongoMeta"
            (.vStr "A User\x27s Profile.")).setKeyE
            "BadgerKeyPrefix" (.vStr "_PrefixProfilePubKeyToProfileEntry:23")))
    | 24 => -- _PrefixProfileStakeToProfilePubKey
      match gslice key 1 9, gsliceFrom key 9 with
      | .ok stakeBytes, .ok pk =>
        do
          let m2 ← simplifyFullE d t
            (.cons "Stake" (.vNat (d.decodeUint64 stakeBytes))
            (.cons "PublicKey" (.vBytes pk)
            (.cons "MongoMeta" (.vStr "Depricated.")
            (.cons "BadgerKeyPrefix"
              (.vStr "_PrefixProfileStakeToProfilePubKey:24") .nil))))
          .ok (some m2)
      | _, _ => .error ()
    | 25 => -- _PrefixProfileUsernameToPKID
      do
        let m2 ← simplifyFullE d t
          (.cons "Username" (.vBytes rest)
          (.cons "PKID" (.vBytes val)
          (.cons "MongoMeta"
            (.vStr "A user\x27s username and their corresponding PKID.")
          (.cons "BadgerKeyPrefix"
            (.vStr "_PrefixProfileUsernameToProfilePubKey:25") .nil))))
        .ok (some m2)
    | 26 => -- _PrefixStakeIDTypeAmountStakeIDIndex
      match gslice key 2 10, gsliceFrom key 10 with
      | .ok amountBytes, .ok stakeID =>
        do
          let m2 ← simplifyFullE d t
            (((.cons "StakeType" (.vStr "")
              (.cons "AmountNanos" (.vBytes amountBytes)
              (.cons "StakeID" (.vBytes stakeID)
              (.cons "MongoMeta"
                (.vStr "A stake ID and its corresponding stakes nanos.")
              (.cons "BadgerKeyPrefix"
                (.vStr "_PrefixStakeIDTypeAmountStakeIDIndex:26")
                .nil))))) : Entries).setKeyE "StakeType"
              (.vStr (if key.getD 1 0 = 0 then "Post" else "Profile")))
          .ok (some m2)
      | _, _ => .error ()
    | 27 => -- _KeyUSDCentsPerBitcoinExchangeRate
      .ok (some (.cons "USDCentsPerBitcoin" (.vNat (d.decodeUint64 val))
        (.cons "MongoMeta"
          (.vStr "The exchange rate in USD Cents for a bitcoin.")
        (.cons "BadgerKeyPrefix"
          (.vStr "_KeyUSDCentsPerBitcoinExchangeRate:27")
        (.cons "Time" (.vStr t) .nil)))))
    | 28 => -- _PrefixFollowerPKIDToFollowedPKID
      match gslice key 1 34, gsliceFrom key 34 with
      | .ok followerB, .ok followedB =>
        do
          let m2 ← simplifyFullE d t
            (.cons "FollowerPKID" (.vBytes followerB)
            (.cons "FollowedPKID" (.vBytes followedB)
            (.cons "MongoMeta"
              (.vStr "A user\x27s PKID (follower) and the PKID of those they follow (followed).")
            (.cons "BadgerKeyPrefix"
              (.vStr "_PrefixFollowerPubKeyToFollowedPubKey:28")
            (.cons "Time" (.vStr t) .nil)))))
          .ok (some m2)
      | _, _ => .error ()
    | 29 => -- _PrefixFollowedPubKeyToFollowerPubKey
      match gslice key 1 34, gsliceFrom key 34 with
      | .ok followedB, .ok followerB =>
        do
          let m2 ← simplifyFullE d t
            (.cons "FollowedPKID" (.vBytes followedB)
            (.cons "FollowerPKID" (.vBytes followerB)
            (.cons "MongoMeta"
              (.vStr "A user\x27s PKID (followed) and the PKID of those who follow them (follower).")
            (.cons "BadgerKeyPrefix"
              (.vStr "_PrefixFollowedPubKeyToFollowerPubKey:29") .nil))))
          .ok (some m2)
      | _, _ => .error ()
    | 30 => -- _PrefixLikerPubKeyToLikedPostHash
      match gsliceFrom key 34, gslice key 1 34 with
      | .ok tailBytes, .ok pk =>
        do
          let m2 ← simplifyFullE d t
            (.cons "PublicKey" (.vBytes pk)
            (.cons "LikedPostHash" (.vBlockHash (fix32 tailBytes))
            (.cons "MongoMeta"
              (.vStr "A user\x27s public key and the post hash of one of their liked posts.")
            (.cons "BadgerKeyPrefix"
              (.vStr "_PrefixLikerPubKeyToLikedPostHash:30") .nil))))
          .ok (some m2)
      | _, _ => .error ()
    | 31 => -- _PrefixLikedPostHashToLikerPubKey
      match gslice key 1 34 with
      | .ok postHashB =>
        do
          let m2 ← simplifyFullE d t
            (.cons "PublicKey" (.vBytes postHashB)
            (.cons "LikedPostHash" (.vBlockHash (fix32 postHashB))
            (.cons "MongoMeta"
              (.vStr "A PostHash and a corresponding public key of someone who liked that post.")
            (.cons "BadgerKeyPrefix"
              (.vStr "_PrefixLikedPostHashToLikerPubKey:31") .nil))))
          .ok (some m2)
      | .error _ => .error ()
    | 32 => -- _PrefixCreatorBitCloutLockedNanosCreatorPKID
      match gsliceFrom key 9, gslice key 1 9 with
      | .ok pkid, .ok lockedBytes =>
        do
          let m2 ← simplifyFullE d t
            (.cons "PKID" (.vBytes pkid)
            (.cons "BitCloutLockedNanos" (.vNat (d.decodeUint64 lockedBytes))
            (.cons "MongoMeta"
              (.vStr "The amount of BitClout locked in a particular profile\x27s PKID.")
            (.cons "BadgerKeyPrefix"
              (.vStr "_PrefixCreatorBitCloutLockedNanosCreatorPubKeyIIndex:32")
              .nil))))
          .ok (some m2)
      | _, _ => .error ()
    | 33 => -- _PrefixHODLerPubKeyCreatorPubKeyToBalanceEntry
      match d.decodeBalanceEntry val with
      | none => .ok none
      | some m => do
          let m2 ← simplifyFullE d t m
          .ok (some ((m2.setKeyE "MongoMeta"
            (.vStr "A user\x27s (HODLerPubKey) balance of held (CreatorPubKey).")).setKeyE
            "BadgerKeyPrefix"
            (.vStr "_PrefixHODLerPubKeyCreatorPubKeyToBalanceEntry:33")))
    | 34 => -- _PrefixCreatorPubKeyHODLerPubKeyToBalanceEntry
      match d.decodeBalanceEntry val with
      | none => .ok none
      | some m => do
          let m2 ← simplifyFullE d t m
          .ok (some ((m2.setKeyE "MongoMeta"
            (.vStr "A ceator\x27s (CreatorPubKey) hodlers (HODLerPubKey) and their associated balances.")).setKeyE
            "BadgerKeyPrefix"
            (.vStr "_PrefixCreatorPubKeyHODLerPubKeyToBalanceEntry:34")))
    | 35 => -- _PrefixPosterPublicKeyTimestampPostHash
      match gsliceFrom key 42, gslice key 1 34, gslice key 34 42 with
      | .ok tailBytes, .ok pk, .ok stampBytes =>
        do
          let m2 ← simplifyFullE d t
            (.cons "PublicKey" (.vBytes pk)
            (.cons "PostHash" (.vBlockHash (fix32 tailBytes))
            (.cons "TStampNanos" (.vNat (d.decodeUint64 stampBytes))
            (.cons "MongoMeta"
              (.vStr "The PostHash of a post generated by a user\x27s public key and the corresponding time in nanos.")
            (.cons "BadgerKeyPrefix"
              (.vStr "_PrefixPosterPublicKeyTimestampPostHash:35") .nil)))))
          .ok (some m2)
      | _, _, _ => .error ()
    | 36 => -- _PrefixPublicKeyToPKID
      match d.decodePKIDEntry val with
      | none => .ok none
      | some m =>
        match m.lookupE "PKID" with
        | some (.vPKIDPtr (some b)) => do
            let m2 ← simplifyFullE d t (m.setKeyE "PKID" (.vBytes b))
            .ok (some ((m2.setKeyE "MongoMeta"
              (.vStr "A mapping of a public key to it\x27s corresponding PKID.")).setKeyE
              "BadgerKeyPrefix" (.vStr "_PrefixPublicKeyToPKID:36")))
        | _ => .error ()
    | 37 => -- _PrefixPKIDToPublicKey
      match gslice key 1 34 with
      | .ok pkid =>
        do
          let m2 ← simplifyFullE d t
            (.cons "PublicKey" (.vBytes val)
            (.cons "PKID" (.vBytes pkid)
            (.cons "MongoMeta"
              (.vStr "A map of a PKID to it\x27s corresponding public key.")
            (.cons "BadgerKeyPrefix"
              (.vStr "_PrefixPKIDToPublicKey:37") .nil))))
          .ok (some m2)
      | .error _ => .error ()
    | 39 => -- _PrefixReclouterPubKeyRecloutedPostHashToRecloutPostHash
      match d.decodeRecloutEntry val with
      | none => .ok none
      | some m => do
          let m2 ← simplifyFullE d t m
          .ok (some ((m2.setKeyE "MongoMeta"
            (.vStr "A user\x27s public key and the post hash of one of the post they reclouted")).setKeyE
            "BadgerKeyPrefix"
            (.vStr "_PrefixReclouterPubKeyRecloutedPostHashToRecloutPostHash:39")))
    | 40 => -- _KeyGlobalParams (no SimplifyMap, no Time)
      match d.decodeGlobalParams val with
      | none => .ok none
      | some m =>
          .ok (some ((m.setKeyE "MongoMeta"
            (.vStr "Global Params Entry")).setKeyE
            "BadgerKeyPrefix" (.vStr "_KeyGlobalPArams")))
    | _ => .ok none

/-- One upsert operation of the sync loop: the code builds
`mongo.NewUpdateOneModel()` with filter `{"_id": string(key)}`, update
`{"$set": doc}` and the upsert flag set.  `filterId` keeps the raw key
bytes (a Go string is a byte string). -/
structure BatchOp where
  filterId : List Nat
  update : Entries
  upsert : Bool

/-- The operation appended for a record whose dispatch produced `doc`. -/
def mkOp (key : List Nat) (doc : Entries) : BatchOp :=
  { filterId := key, update := doc, upsert := true }

/-- Observable actions of one pass of `SyncingService.Start`, in
program order. -/
inductive Event where
  | txnBegin : Event
  | bulkWrite (ops : List BatchOp) : Event
  | logFailedBulk : Event
  | logCompletedBulk : Event
  | logFailedFinal : Event
  | sleep (seconds : Nat) : Event
  | txnEnd : Event

/-- A record of the badger store: raw key and raw value bytes. -/
abbrev Rec := List Nat × List Nat

/-- The `for itr.Seek(nil); itr.Valid(); itr.Next()` loop of
`SyncingService.Start`.  State: `total` = `totalIterations`, `ops` the
pending batch, `ci` the index of the next bulk-write call (fed to the
failure oracle `fail`).  Each iteration first flushes a full batch of
1000, then dispatches the record; a dispatcher panic crashes the pass
(`.error`).  Returns the events emitted plus the final loop state. -/
def runScan (d : Decoders) (t : String) (fail : Nat → Bool) :
    List Rec → Nat → List BatchOp → Nat →
    Except Unit (List Event × Nat × List BatchOp × Nat)
  | [], total, ops, ci => .ok ([], total, ops, ci)
  | (k, v) :: rs, total, ops, ci =>
    let flush := total % 1000 = 0 ∧ total ≠ 0
    let pre : List Event :=
      if flush then
        [Event.bulkWrite ops,
         if fail ci then Event.logFailedBulk else Event.logCompletedBulk]
      else []
    let total' := if flush then 0 else total
    let ops' := if flush then [] else ops
    let ci' := if flush then ci + 1 else ci
    match badgerItrToJSON d k v t with
    | .error _ => .error ()
    | .ok none =>
        (runScan d t fail rs total' ops' ci').map
          (fun r => (pre ++ r.1, r.2))
    | .ok (some doc) =>
        (runScan d t fail rs (total' + 1) (ops' ++ [mkOp k doc]) ci').map
          (fun r => (pre ++ r.1, r.2))

/-- One iteration of the outer `for` loop of `SyncingService.Start`:
the `DB.View` transaction runs the scan, flushes the remaining partial
batch (`ops[0:totalIterations]`), sleeps 60 seconds and only then
returns (releasing the snapshot). -/
def passEvents (d : Decoders) (t : String) (fail : Nat → Bool)
    (recs : List Rec) : Except Unit (List Event) := do
  let r ← runScan d t fail recs 0 [] 0
  let fin : List Event :=
    if r.2.1 ≠ 0 then
      Event.bulkWrite (r.2.2.1.take r.2.1) ::
        (if fail r.2.2.2 then [Event.logFailedFinal] else [])
    else []
  .ok (Event.txnBegin :: (r.1 ++ fin ++ [Event.sleep 60, Event.txnEnd]))

/-- `n` iterations of the outer loop (it has no exit condition; the
model truncates after `n` passes). -/
def syncTrace (d : Decoders) (t : String) (fail : Nat → Bool)
    (recs : List Rec) : Nat → Except Unit (List Event)
  | 0 => .ok []
  | n + 1 => do
      let p ← passEvents d t fail recs
      let r ← syncTrace d t fail recs n
      .ok (p ++ r)

/-- The payloads of the bulk-write calls of a trace, in order. -/
def bulkCalls (evs : List Event) : List (List BatchOp) :=
  evs.filterMap (fun e => match e with
    | .bulkWrite ops => some ops
    | _ => none)

/-- A trace with the log lines removed: what the loop does, ignoring
what it prints. -/
def dropLogs (evs : List Event) : List Event :=
  evs.filter (fun e => match e with
    | .logFailedBulk => false
    | .logCompletedBulk => false
    | .logFailedFinal => false
    | _ => true)

/-- Expected batch sizes when `n` operations are streamed in chunks of
1000: `ceil(n / 1000)` calls of 1000 with the remainder last. -/
def chunkSizes (n : Nat) : List Nat :=
  if n = 0 then []
  else if n ≤ 1000 then [n]
  else 1000 :: chunkSizes (n - 1000)

/-- A concrete `Decoders` instance used by the witnesses: every
structured decode fails and the string converters are constant. -/
def d0 : Decoders where
  decodeMsgBlock _ := none
  decodeBlockNode _ := none
  decodeUtxoEntry _ := none
  decodeUtxoKey _ := none
  decodeMessageEntry _ := none
  decodeTransactionMetadata _ := none
  decodePostEntry _ := none
  decodeProfileEntry _ := none
  decodeBalanceEntry _ := none
  decodePKIDEntry _ := none
  decodeRecloutEntry _ := none
  decodeGlobalParams _ := none
  pkToStringBoth _ := "pk"
  blockHashString _ := "bh"
  utxoTypeString _ := "ut"
  hexEncode _ := "hex"
  bytesToString _ := "str"
  bigIntString _ := "int"
  decodeUint64 _ := 0

/-- The key tags handled by a `case` of the dispatcher. -/
def supportedTags : List Nat := List.range 38 ++ [39, 40]


/-- The property C2 asserts of every batch operation: upsert flag set,
filter equal to the raw key bytes of a scanned record whose dispatch
produced the update document. -/
def opFromRecord (d : Decoders) (t : String) (recs : List Rec)
    (op : BatchOp) : Prop :=
  op.upsert = true ∧ ∃ k v doc, (k, v) ∈ recs ∧
    badgerItrToJSON d k v t = .ok (some doc) ∧
    op.filterId = k ∧ op.update = doc

/-- View of a scan result that forgets the log lines. -/
def scanView :
    Except Unit (List Event × Nat × List BatchOp × Nat) →
    Except Unit (List Event × Nat × List BatchOp × Nat)
  | .error e => .error e
  | .ok (evs, s) => .ok (dropLogs evs, s)

/-- The document the dispatcher emits for a tag-13 record. -/
def acctDoc (t : String) : Entries :=
  .cons "BadgerKeyPrefix" (.vStr "_KeyAccountData:13")
    (.cons "Time" (.vStr t) .nil)

/-- All field names inspected by the key switch of `SimplifyMap`. -/
def keySwitchNames : List String :=
  "PKID" :: "HODLerPKID" :: "CreatorPKID" ::
    pubKeyNames ++ "ParentStakeID" :: textNames ++ ["Header", "Txns"]

/-- Structural induction on `Entries` alone (the mutual recursor of the
nested inductive pair is inconvenient for motives that do not descend
into values). -/
def Entries.recE {motive : Entries → Prop} (hnil : motive .nil)
    (hcons : ∀ k v r, motive r → motive (.cons k v r)) : ∀ m, motive m
  | .nil => hnil
  | .cons k v r => hcons k v r (Entries.recE hnil hcons r)


mutual
/-- Values on which the type switch of `SimplifyMap` is the identity
(up to recursion into nested maps): JSON primitives, byte slices,
slices of values, and nested maps of the same shape. -/
def benignV : Value → Bool
  | .vNull => true
  | .vStr _ => true
  | .vNat _ => true
  | .vBytes _ => true
  | .vList _ => true
  | .vMap m => benignE m
  | _ => false

/-- Field maps whose keys avoid every name-directed rewrite of
`SimplifyMap` and whose values are `benignV`. -/
def benignE : Entries → Bool
  | .nil => true
  | .cons k v r => decide (k ∉ keySwitchNames) && benignV v && benignE r
end

mutual
/-- What `SimplifyMap` does to a benign value: recurse into nested
maps, stamping their `Time`. -/
def normV (t : String) : Value → Value
  | .vMap m => .vMap ((normE t m).setKeyE "Time" (.vStr t))
  | v => v

/-- Entry-wise `normV`. -/
def normE (t : String) : Entries → Entries
  | .nil => .nil
  | .cons k v r => .cons k (normV t v) (normE t r)
end

/-- What `SimplifyMap` does to a benign map: normalize every entry and
stamp the top-level `Time`. -/
def normFull (t : String) (m : Entries) : Entries :=
  (normE t m).setKeyE "Time" (.vStr t)

mutual
/-- Mutual recursion principle for `Value`: the value motive receives
the entries motive on the payload of `vMap`. -/
def Value.recVE {mv : Value → Prop} {me : Entries → Prop}
    (hbase : ∀ v, (∀ m, v = Value.vMap m → me m) → mv v)
    (hnil : me .nil)
    (hcons : ∀ k v r, mv v → me r → me (.cons k v r)) : ∀ v, mv v
  | .vMap m => hbase (.vMap m)
      (fun _ hm => Value.vMap.inj hm ▸ Entries.recVE hbase hnil hcons m)
  | .vNull => hbase .vNull (fun _ hm => Value.noConfusion hm)
  | .vStr s => hbase (.vStr s) (fun _ hm => Value.noConfusion hm)
  | .vNat n => hbase (.vNat n) (fun _ hm => Value.noConfusion hm)
  | .vBytes b => hbase (.vBytes b) (fun _ hm => Value.noConfusion hm)
  | .vList l => hbase (.vList l) (fun _ hm => Value.noConfusion hm)
  | .vUtxoType u => hbase (.vUtxoType u) (fun _ hm => Value.noConfusion hm)
  | .vBlockHash h => hbase (.vBlockHash h) (fun _ hm => Value.noConfusion hm)
  | .vBlockHashPtr h => hbase (.vBlockHashPtr h) (fun _ hm => Value.noConfusion hm)
  | .vBlockNodePtr p => hbase (.vBlockNodePtr p) (fun _ hm => Value.noConfusion hm)
  | .vBigInt i => hbase (.vBigInt i) (fun _ hm => Value.noConfusion hm)
  | .vStakeEntry => hbase .vStakeEntry (fun _ hm => Value.noConfusion hm)
  | .vPKIDPtr b => hbase (.vPKIDPtr b) (fun _ hm => Value.noConfusion hm)

/-- Mutual recursion principle for `Entries`. -/
def Entries.recVE {mv : Value → Prop} {me : Entries → Prop}
    (hbase : ∀ v, (∀ m, v = Value.vMap m → me m) → mv v)
    (hnil : me .nil)
    (hcons : ∀ k v r, mv v → me r → me (.cons k v r)) : ∀ m, me m
  | .nil => hnil
  | .cons k v r => hcons k v r (Value.recVE hbase hnil hcons v)
      (Entries.recVE hbase hnil hcons r)
end

theorem chunkSizes_length (n : Nat) :
    (chunkSizes n).length = (n + 999) / 1000 := by
  induction n using chunkSizes.induct with
  | case1 => simp [chunkSizes]
  | case2 n h1 h2 =>
      rw [chunkSizes]; simp only [if_neg h1, if_pos h2, List.length_singleton]
      omega
  | case3 n h1 h2 ih =>
      rw [chunkSizes]
      simp only [if_neg h1, if_neg h2, List.length_cons, ih]
      omega

theorem chunkSizes_le (n : Nat) : ∀ c ∈ chunkSizes n, c ≤ 1000 := by
  induction n using chunkSizes.induct with
  | case1 => simp [chunkSizes]
  | case2 n h1 h2 =>
      rw [chunkSizes]; simp only [if_neg h1, if_pos h2]
      intro c hc
      rcases List.mem_singleton.mp hc with rfl
      omega
  | case3 n h1 h2 ih =>
      rw [chunkSizes]; simp only [if_neg h1, if_neg h2]
      intro c hc
      rcases List.mem_cons.mp hc with rfl | hc
      · exact le_refl _
      · exact ih c hc

theorem chunkSizes_all_1000 (n : Nat) (h : n % 1000 = 0) :
    ∀ c ∈ chunkSizes n, c = 1000 := by
  induction n using chunkSizes.induct with
  | case1 => simp [chunkSizes]
  | case2 n h1 h2 =>
      rw [chunkSizes]; simp only [if_neg h1, if_pos h2]
      have : n = 1000 := by omega
      simp [this]
  | case3 n h1 h2 ih =>
      rw [chunkSizes]; simp only [if_neg h1, if_neg h2]
      intro c hc
      rcases List.mem_cons.mp hc with rfl | hc
      · rfl
      · exact ih (by omega) c hc

theorem chunkSizes_ne_nil (n : Nat) (h : n ≠ 0) : chunkSizes n ≠ [] := by
  rw [chunkSizes]
  simp only [if_neg h]
  split <;> simp

set_option maxRecDepth 10000 in
theorem chunkSizes_last (n : Nat) (h : n % 1000 ≠ 0) :
    (chunkSizes n).getLast? = some (n % 1000) := by
  induction n using chunkSizes.induct with
  | case1 => omega
  | case2 n h1 h2 =>
      rw [chunkSizes]; simp only [if_neg h1, if_pos h2]
      have : n % 1000 = n := by omega
      simp [this]
  | case3 n h1 h2 ih =>
      rw [chunkSizes]; simp only [if_neg h1, if_neg h2]
      have hne : chunkSizes (n - 1000) ≠ [] := chunkSizes_ne_nil _ (by omega)
      rw [← List.singleton_append, List.getLast?_append_of_ne_nil _ hne,
        ih (by omega)]
      congr 1
      omega


theorem bulkCalls_append (a b : List Event) :
    bulkCalls (a ++ b) = bulkCalls a ++ bulkCalls b := by
  simp [bulkCalls]

theorem runScan_sizes (d : Decoders) (t : String) (fail : Nat → Bool)
    (rs : List Rec) :
    ∀ (total : Nat) (ops : List BatchOp) (ci : Nat),
      (∀ r ∈ rs, ∃ doc, badgerItrToJSON d r.1 r.2 t = .ok (some doc)) →
      ops.length = total → total ≤ 1000 →
      ∃ evs total' ops' ci',
        runScan d t fail rs total ops ci = .ok (evs, total', ops', ci') ∧
        ops'.length = total' ∧ total' ≤ 1000 ∧
        ((bulkCalls evs).map List.length ++
          (if total' = 0 then [] else [total'])) =
          chunkSizes (total + rs.length) := by
  induction rs with
  | nil =>
      intro total ops ci _ hlen hle
      refine ⟨[], total, ops, ci, rfl, hlen, hle, ?_⟩
      by_cases h0 : total = 0
      · simp [h0, bulkCalls, chunkSizes]
      · rw [chunkSizes]
        simp only [List.length_nil, Nat.add_zero, if_neg h0]
        simp [bulkCalls, if_pos (show total ≤ 1000 from hle)]
  | cons r rs ih =>
      rcases r with ⟨k, v⟩
      intro total ops ci hall hlen hle
      obtain ⟨doc, hdoc⟩ := hall (k, v) (List.mem_cons_self _ _)
      have hall' : ∀ r ∈ rs, ∃ doc, badgerItrToJSON d r.1 r.2 t = .ok (some doc) :=
        fun r hr => hall r (List.mem_cons_of_mem _ hr)
      by_cases hf : total % 1000 = 0 ∧ total ≠ 0
      · have ht : total = 1000 := by omega
        obtain ⟨evs, tot', ops', ci', hrun, hlen', hle', hsz⟩ :=
          ih 1 [mkOp k doc] (ci + 1) hall' (by simp) (by omega)
        refine ⟨(if fail ci then
            [Event.bulkWrite ops, Event.logFailedBulk]
          else [Event.bulkWrite ops, Event.logCompletedBulk]) ++ evs,
          tot', ops', ci', ?_, hlen', hle', ?_⟩
        · rw [runScan]
          simp only [if_pos hf, hdoc, hrun]
          cases hfc : fail ci <;> simp [hfc, hrun, Except.map]
        · rw [bulkCalls_append]
          have hbc : bulkCalls (if fail ci then
              [Event.bulkWrite ops, Event.logFailedBulk]
            else [Event.bulkWrite ops, Event.logCompletedBulk]) = [ops] := by
            cases fail ci <;> simp [bulkCalls]
          rw [hbc]
          have : total + (rs.length + 1) = (1 + rs.length) + 1000 := by omega
          rw [List.length_cons, this, chunkSizes]
          have h1 : ¬ (1 + rs.length + 1000 = 0) := by omega
          have h2 : ¬ (1 + rs.length + 1000 ≤ 1000) := by omega
          simp only [if_neg h1, if_neg h2, Nat.add_sub_cancel]
          simp only [List.map_cons, List.cons_append, List.nil_append, hlen, ht, hsz]
      · have hlt : total < 1000 := by
          rcases Nat.lt_or_ge total 1000 with h | h
          · exact h
          · exfalso; exact hf ⟨by omega, by omega⟩
        obtain ⟨evs, tot', ops', ci', hrun, hlen', hle', hsz⟩ :=
          ih (total + 1) (ops ++ [mkOp k doc]) ci hall'
            (by simp [hlen]) (by omega)
        refine ⟨evs, tot', ops', ci', ?_, hlen', hle', ?_⟩
        · rw [runScan]
          simp only [if_neg hf, hdoc, hrun]
          rfl
        · rw [hsz]
          congr 1
          simp [List.length_cons]
          omega

theorem c1_batching (d : Decoders) (t : String) (fail : Nat → Bool)
    (recs : List Rec)
    (hall : ∀ r ∈ recs, ∃ doc, badgerItrToJSON d r.1 r.2 t = .ok (some doc)) :
    ∃ evs, passEvents d t fail recs = .ok evs ∧
      (bulkCalls evs).length = (recs.length + 999) / 1000 ∧
      (∀ c ∈ bulkCalls evs, c.length ≤ 1000) ∧
      (recs.length % 1000 = 0 → ∀ c ∈ bulkCalls evs, c.length = 1000) ∧
      (recs.length % 1000 ≠ 0 →
        ((bulkCalls evs).map List.length).getLast? =
          some (recs.length % 1000)) ∧
      (recs = [] → bulkCalls evs = []) := by
  obtain ⟨evs0, tot', ops', ci', hrun, hlen', hle', hsz⟩ :=
    runScan_sizes d t fail recs 0 [] 0 hall rfl (by omega)
  rw [Nat.zero_add] at hsz
  have hfin : bulkCalls (if tot' ≠ 0 then
      Event.bulkWrite (ops'.take tot') ::
        (if fail ci' then [Event.logFailedFinal] else [])
    else []) = if tot' = 0 then [] else [ops'.take tot'] := by
    by_cases h0 : tot' = 0
    · simp [h0, bulkCalls]
    · simp only [if_neg h0, ne_eq, h0, not_false_eq_true, if_pos, if_neg]
      cases fail ci' <;> simp [bulkCalls, h0]
  have htake : (ops'.take tot').length = tot' := by
    rw [List.length_take, hlen']; omega
  refine ⟨Event.txnBegin :: (evs0 ++ (if tot' ≠ 0 then
      Event.bulkWrite (ops'.take tot') ::
        (if fail ci' then [Event.logFailedFinal] else [])
    else []) ++ [Event.sleep 60, Event.txnEnd]), ?_, ?_⟩
  · rw [passEvents, hrun]
    rfl
  · have hmain : (bulkCalls (Event.txnBegin :: (evs0 ++ (if tot' ≠ 0 then
        Event.bulkWrite (ops'.take tot') ::
          (if fail ci' then [Event.logFailedFinal] else [])
      else []) ++ [Event.sleep 60, Event.txnEnd]))).map List.length =
        chunkSizes recs.length := by
      have : bulkCalls (Event.txnBegin :: (evs0 ++ (if tot' ≠ 0 then
          Event.bulkWrite (ops'.take tot') ::
            (if fail ci' then [Event.logFailedFinal] else [])
        else []) ++ [Event.sleep 60, Event.txnEnd])) =
          bulkCalls evs0 ++ (if tot' = 0 then [] else [ops'.take tot']) := by
        have hstep : bulkCalls (Event.txnBegin :: (evs0 ++ (if tot' ≠ 0 then
            Event.bulkWrite (ops'.take tot') ::
              (if fail ci' then [Event.logFailedFinal] else [])
          else []) ++ [Event.sleep 60, Event.txnEnd])) =
            bulkCalls evs0 ++ bulkCalls (if tot' ≠ 0 then
              Event.bulkWrite (ops'.take tot') ::
                (if fail ci' then [Event.logFailedFinal] else [])
            else []) ++ bulkCalls [Event.sleep 60, Event.txnEnd] := by
          simp [bulkCalls]
        rw [hstep, hfin]
        simp [bulkCalls]
      rw [this]
      simp only [List.map_append]
      rw [← hsz]
      congr 1
      by_cases h0 : tot' = 0 <;> simp [h0, htake]
    refine ⟨?_, ?_, ?_, ?_, ?_⟩
    · have := congrArg List.length hmain
      simpa [chunkSizes_length] using this
    · intro c hc
      have : c.length ∈ chunkSizes recs.length := by
        rw [← hmain]; exact List.mem_map_of_mem _ hc
      exact chunkSizes_le _ _ this
    · intro hmod c hc
      have : c.length ∈ chunkSizes recs.length := by
        rw [← hmain]; exact List.mem_map_of_mem _ hc
      exact chunkSizes_all_1000 _ hmod _ this
    · intro hmod
      rw [hmain]
      exact chunkSizes_last _ hmod
    · intro hrnil
      subst hrnil
      have : chunkSizes (List.length ([] : List Rec)) = [] := by
        simp [chunkSizes]
      rw [this] at hmain
      exact List.map_eq_nil_iff.mp hmain


theorem runScan_ops (d : Decoders) (t : String) (fail : Nat → Bool)
    (recs : List Rec) (rs : List Rec) :
    ∀ (total : Nat) (ops : List BatchOp) (ci : Nat)
      (evs : List Event) (tot' : Nat) (ops' : List BatchOp) (ci' : Nat),
      (∀ x ∈ rs, x ∈ recs) →
      runScan d t fail rs total ops ci = .ok (evs, tot', ops', ci') →
      (∀ op ∈ ops, opFromRecord d t recs op) →
      (∀ c ∈ bulkCalls evs, ∀ op ∈ c, opFromRecord d t recs op) ∧
      (∀ op ∈ ops', opFromRecord d t recs op) := by
  induction rs with
  | nil =>
      intro total ops ci evs tot' ops' ci' _ hrun hops
      rw [runScan] at hrun
      simp only [Except.ok.injEq, Prod.mk.injEq] at hrun
      obtain ⟨h1, h2, h3, h4⟩ := hrun
      subst h1; subst h2; subst h3; subst h4
      exact ⟨by simp [bulkCalls], hops⟩
  | cons r rs ih =>
      rcases r with ⟨k, v⟩
      intro total ops ci evs tot' ops' ci' hsub hrun hops
      have hksub : (k, v) ∈ recs := hsub _ (List.mem_cons_self _ _)
      have hsub' : ∀ x ∈ rs, x ∈ recs :=
        fun x hx => hsub x (List.mem_cons_of_mem _ hx)
      rw [runScan] at hrun
      cases hdoc : badgerItrToJSON d k v t with
      | error e =>
          rw [hdoc] at hrun
          simp at hrun
      | ok odoc =>
          rw [hdoc] at hrun
          cases odoc with
          | none =>
              dsimp only at hrun
              cases hrec : runScan d t fail rs
                  (if total % 1000 = 0 ∧ total ≠ 0 then 0 else total)
                  (if total % 1000 = 0 ∧ total ≠ 0 then [] else ops)
                  (if total % 1000 = 0 ∧ total ≠ 0 then ci + 1 else ci) with
              | error e => rw [hrec] at hrun; exact absurd hrun (by simp [Except.map])
              | ok rr =>
                  rw [hrec] at hrun
                  obtain ⟨evs1, tot1, ops1, ci1⟩ := rr
                  simp only [Except.map, Except.ok.injEq] at hrun
                  obtain ⟨hevs, htot, hops1, hci⟩ :
                      (if total % 1000 = 0 ∧ total ≠ 0 then
                        [Event.bulkWrite ops,
                         if fail ci then Event.logFailedBulk
                         else Event.logCompletedBulk] else []) ++ evs1 = evs ∧
                      tot1 = tot' ∧ ops1 = ops' ∧ ci1 = ci' := by
                    cases hrun
                    exact ⟨rfl, rfl, rfl, rfl⟩
                  subst hevs htot hops1 hci
                  have hops2 : ∀ op ∈ (if total % 1000 = 0 ∧ total ≠ 0 then
                      ([] : List BatchOp) else ops), opFromRecord d t recs op := by
                    split <;> simp_all
                  obtain ⟨hcalls, hops'⟩ := ih _ _ _ _ _ _ _ hsub' hrec hops2
                  refine ⟨?_, hops'⟩
                  intro c hc op hop
                  rw [bulkCalls_append] at hc
                  rcases List.mem_append.mp hc with hc | hc
                  · by_cases hf : total % 1000 = 0 ∧ total ≠ 0
                    · rw [if_pos hf] at hc
                      have : c = ops := by
                        cases hfc : fail ci <;>
                          simp [bulkCalls, hfc] at hc <;> exact hc
                      subst this
                      exact hops op hop
                    · rw [if_neg hf] at hc
                      simp [bulkCalls] at hc
                  · exact hcalls c hc op hop
          | some doc =>
              dsimp only at hrun
              cases hrec : runScan d t fail rs
                  ((if total % 1000 = 0 ∧ total ≠ 0 then 0 else total) + 1)
                  ((if total % 1000 = 0 ∧ total ≠ 0 then [] else ops) ++ [mkOp k doc])
                  (if total % 1000 = 0 ∧ total ≠ 0 then ci + 1 else ci) with
              | error e => rw [hrec] at hrun; exact absurd hrun (by simp [Except.map])
              | ok rr =>
                  rw [hrec] at hrun
                  obtain ⟨evs1, tot1, ops1, ci1⟩ := rr
                  simp only [Except.map, Except.ok.injEq] at hrun
                  obtain ⟨hevs, htot, hops1, hci⟩ :
                      (if total % 1000 = 0 ∧ total ≠ 0 then
                        [Event.bulkWrite ops,
                         if fail ci then Event.logFailedBulk
                         else Event.logCompletedBulk] else []) ++ evs1 = evs ∧
                      tot1 = tot' ∧ ops1 = ops' ∧ ci1 = ci' := by
                    cases hrun
                    exact ⟨rfl, rfl, rfl, rfl⟩
                  subst hevs htot hops1 hci
                  have hmk : opFromRecord d t recs (mkOp k doc) :=
                    ⟨rfl, k, v, doc, hksub, hdoc, rfl, rfl⟩
                  have hops2 : ∀ op ∈ (if total % 1000 = 0 ∧ total ≠ 0 then
                      ([] : List BatchOp) else ops) ++ [mkOp k doc],
                      opFromRecord d t recs op := by
                    intro op hop
                    rcases List.mem_append.mp hop with hop | hop
                    · revert hop; split <;> simp_all
                    · rcases List.mem_singleton.mp hop with rfl
                      exact hmk
                  obtain ⟨hcalls, hops'⟩ := ih _ _ _ _ _ _ _ hsub' hrec hops2
                  refine ⟨?_, hops'⟩
                  intro c hc op hop
                  rw [bulkCalls_append] at hc
                  rcases List.mem_append.mp hc with hc | hc
                  · by_cases hf : total % 1000 = 0 ∧ total ≠ 0
                    · rw [if_pos hf] at hc
                      have : c = ops := by
                        cases hfc : fail ci <;>
                          simp [bulkCalls, hfc] at hc <;> exact hc
                      subst this
                      exact hops op hop
                    · rw [if_neg hf] at hc
                      simp [bulkCalls] at hc
                  · exact hcalls c hc op hop

theorem bulkCalls_pass (evs0 : List Event) (tot' : Nat)
    (ops' : List BatchOp) (ci' : Nat) (fail : Nat → Bool) :
    bulkCalls (Event.txnBegin :: (evs0 ++ (if tot' ≠ 0 then
        Event.bulkWrite (ops'.take tot') ::
          (if fail ci' then [Event.logFailedFinal] else [])
      else []) ++ [Event.sleep 60, Event.txnEnd])) =
      bulkCalls evs0 ++ (if tot' = 0 then [] else [ops'.take tot']) := by
  by_cases h0 : tot' = 0
  · simp [h0, bulkCalls]
  · cases hfc : fail ci' <;> simp [h0, hfc, bulkCalls]

theorem c2_id_equality (d : Decoders) (t : String) (fail : Nat → Bool)
    (recs : List Rec) (evs : List Event)
    (hpass : passEvents d t fail recs = .ok evs) :
    ∀ c ∈ bulkCalls evs, ∀ op ∈ c,
      op.upsert = true ∧ ∃ k v doc, (k, v) ∈ recs ∧
        badgerItrToJSON d k v t = .ok (some doc) ∧
        op.filterId = k ∧ op.update = doc := by
  rw [passEvents] at hpass
  cases hrun : runScan d t fail recs 0 [] 0 with
  | error e =>
      rw [hrun] at hpass
      simp [Bind.bind, Except.bind] at hpass
  | ok r =>
      obtain ⟨evs0, tot', ops', ci'⟩ := r
      rw [hrun] at hpass
      simp only [Bind.bind, Except.bind, Except.ok.injEq] at hpass
      subst hpass
      obtain ⟨hcalls, hops'⟩ :=
        runScan_ops d t fail recs recs 0 [] 0 evs0 tot' ops' ci'
          (fun x hx => hx) hrun (by simp)
      intro c hc op hop
      rw [bulkCalls_pass] at hc
      rcases List.mem_append.mp hc with hc0 | hc1
      · exact hcalls c hc0 op hop
      · by_cases h0 : tot' = 0
        · rw [if_pos h0] at hc1
          exact absurd hc1 (List.not_mem_nil c)
        · rw [if_neg h0] at hc1
          rcases List.mem_singleton.mp hc1 with rfl
          exact hops' op (List.take_subset _ _ hop)


theorem c1_batching_witness :
    ∃ evs, passEvents d0 "t" (fun _ => false) [([13], []), ([13], [])] = .ok evs ∧
      (bulkCalls evs).length = 1 := by
  have hall : ∀ r ∈ ([([13], []), ([13], [])] : List Rec),
      ∃ doc, badgerItrToJSON d0 r.1 r.2 "t" = .ok (some doc) := by
    intro r hr
    rcases List.mem_cons.mp hr with rfl | hr
    · exact ⟨acctDoc "t", rfl⟩
    rcases List.mem_singleton.mp hr with rfl
    exact ⟨acctDoc "t", rfl⟩
  obtain ⟨evs, h1, h2, _⟩ := c1_batching d0 "t" (fun _ => false) _ hall
  exact ⟨evs, h1, by simpa using h2⟩

theorem c2_id_equality_witness :
    (mkOp [13] (acctDoc "t")).upsert = true ∧
    ∃ k v doc, (k, v) ∈ ([([13], [])] : List Rec) ∧
      badgerItrToJSON d0 k v "t" = .ok (some doc) ∧
      (mkOp [13] (acctDoc "t")).filterId = k ∧
      (mkOp [13] (acctDoc "t")).update = doc := by
  refine c2_id_equality d0 "t" (fun _ => false) [([13], [])]
    [Event.txnBegin, Event.bulkWrite [mkOp [13] (acctDoc "t")],
     Event.sleep 60, Event.txnEnd] rfl
    [mkOp [13] (acctDoc "t")] ?_ (mkOp [13] (acctDoc "t")) ?_
  · exact List.mem_singleton.mpr rfl
  · exact List.mem_singleton.mpr rfl

/-- Scan events are bulk writes and log lines only: the scan itself
never sleeps, never opens and never closes a transaction. -/
theorem runScan_no_ctrl (d : Decoders) (t : String) (fail : Nat → Bool)
    (rs : List Rec) :
    ∀ (total : Nat) (ops : List BatchOp) (ci : Nat) evs tot' ops' ci',
      runScan d t fail rs total ops ci = .ok (evs, tot', ops', ci') →
      ∀ e ∈ evs, (∀ s, e ≠ Event.sleep s) ∧
        e ≠ Event.txnBegin ∧ e ≠ Event.txnEnd := by
  induction rs with
  | nil =>
      intro total ops ci evs tot' ops' ci' hrun
      rw [runScan] at hrun
      simp only [Except.ok.injEq, Prod.mk.injEq] at hrun
      obtain ⟨h1, -, -, -⟩ := hrun
      subst h1
      intro e he
      exact absurd he (List.not_mem_nil e)
  | cons r rs ih =>
      rcases r with ⟨k, v⟩
      intro total ops ci evs tot' ops' ci' hrun
      rw [runScan] at hrun
      cases hdoc : badgerItrToJSON d k v t with
      | error e => rw [hdoc] at hrun; simp at hrun
      | ok odoc =>
          rw [hdoc] at hrun
          have hpre : ∀ e ∈ (if total % 1000 = 0 ∧ total ≠ 0 then
              [Event.bulkWrite ops,
               if fail ci then Event.logFailedBulk else Event.logCompletedBulk]
            else ([] : List Event)),
              (∀ s, e ≠ Event.sleep s) ∧ e ≠ Event.txnBegin ∧ e ≠ Event.txnEnd := by
            split
            · intro e he
              rcases List.mem_cons.mp he with rfl | he
              · exact ⟨fun s => by simp, by simp, by simp⟩
              rcases List.mem_singleton.mp he with rfl
              split <;> exact ⟨fun s => by simp, by simp, by simp⟩
            · intro e he
              exact absurd he (List.not_mem_nil e)
          cases odoc with
          | none =>
              dsimp only at hrun
              cases hrec : runScan d t fail rs
                  (if total % 1000 = 0 ∧ total ≠ 0 then 0 else total)
                  (if total % 1000 = 0 ∧ total ≠ 0 then [] else ops)
                  (if total % 1000 = 0 ∧ total ≠ 0 then ci + 1 else ci) with
              | error e => rw [hrec] at hrun; exact absurd hrun (by simp [Except.map])
              | ok rr =>
                  rw [hrec] at hrun
                  obtain ⟨evs1, st1⟩ := rr
                  simp only [Except.map, Except.ok.injEq, Prod.mk.injEq] at hrun
                  obtain ⟨h1, -⟩ := hrun
                  subst h1
                  intro e he
                  rcases List.mem_append.mp he with he | he
                  · exact hpre e he
                  · obtain ⟨st1a, st1b, st1c⟩ := st1
                    exact ih _ _ _ _ _ _ _ hrec e he
          | some doc =>
              dsimp only at hrun
              cases hrec : runScan d t fail rs
                  ((if total % 1000 = 0 ∧ total ≠ 0 then 0 else total) + 1)
                  ((if total % 1000 = 0 ∧ total ≠ 0 then [] else ops) ++ [mkOp k doc])
                  (if total % 1000 = 0 ∧ total ≠ 0 then ci + 1 else ci) with
              | error e => rw [hrec] at hrun; exact absurd hrun (by simp [Except.map])
              | ok rr =>
                  rw [hrec] at hrun
                  obtain ⟨evs1, st1⟩ := rr
                  simp only [Except.map, Except.ok.injEq, Prod.mk.injEq] at hrun
                  obtain ⟨h1, -⟩ := hrun
                  subst h1
                  intro e he
                  rcases List.mem_append.mp he with he | he
                  · exact hpre e he
                  · obtain ⟨st1a, st1b, st1c⟩ := st1
                    exact ih _ _ _ _ _ _ _ hrec e he

/-- Every successful pass is: open snapshot, scan/flush work, final
flush, one 60-second sleep, close snapshot — with no sleep and no
transaction boundary inside the working part. -/
theorem passEvents_shape (d : Decoders) (t : String) (fail : Nat → Bool)
    (recs : List Rec) (evs : List Event)
    (hpass : passEvents d t fail recs = .ok evs) :
    ∃ body, evs = Event.txnBegin :: body ++ [Event.sleep 60, Event.txnEnd] ∧
      ∀ e ∈ body, (∀ s, e ≠ Event.sleep s) ∧
        e ≠ Event.txnBegin ∧ e ≠ Event.txnEnd := by
  rw [passEvents] at hpass
  cases hrun : runScan d t fail recs 0 [] 0 with
  | error e => rw [hrun] at hpass; simp [Bind.bind, Except.bind] at hpass
  | ok r =>
      obtain ⟨evs0, tot', ops', ci'⟩ := r
      rw [hrun] at hpass
      simp only [Bind.bind, Except.bind, Except.ok.injEq] at hpass
      subst hpass
      refine ⟨evs0 ++ (if tot' ≠ 0 then
          Event.bulkWrite (ops'.take tot') ::
            (if fail ci' then [Event.logFailedFinal] else [])
        else []), by simp, ?_⟩
      intro e he
      rcases List.mem_append.mp he with he | he
      · exact runScan_no_ctrl d t fail recs 0 [] 0 _ _ _ _ hrun e he
      · revert he
        split
        · intro he
          rcases List.mem_cons.mp he with rfl | he
          · exact ⟨fun s => by simp, by simp, by simp⟩
          · revert he; split
            · intro he
              rcases List.mem_singleton.mp he with rfl
              exact ⟨fun s => by simp, by simp, by simp⟩
            · intro he; exact absurd he (List.not_mem_nil e)
        · intro he; exact absurd he (List.not_mem_nil e)


theorem dropLogs_append (a b : List Event) :
    dropLogs (a ++ b) = dropLogs a ++ dropLogs b := by
  simp [dropLogs]

/-- Which bulk writes happen, with which operations, and the final
loop state are independent of which bulk-write calls fail: a failure
only changes the log line — it is not retried and does not abort the
rest of the scan. -/
theorem runScan_fail_oblivious (d : Decoders) (t : String)
    (fail1 fail2 : Nat → Bool) (rs : List Rec) :
    ∀ (total : Nat) (ops : List BatchOp) (ci : Nat),
      scanView (runScan d t fail1 rs total ops ci) =
        scanView (runScan d t fail2 rs total ops ci) := by
  induction rs with
  | nil => intro total ops ci; rfl
  | cons r rs ih =>
      rcases r with ⟨k, v⟩
      intro total ops ci
      rw [runScan, runScan]
      cases hdoc : badgerItrToJSON d k v t with
      | error e => rfl
      | ok odoc =>
          have hpre : dropLogs (if total % 1000 = 0 ∧ total ≠ 0 then
              [Event.bulkWrite ops,
               if fail1 ci then Event.logFailedBulk else Event.logCompletedBulk]
            else []) = dropLogs (if total % 1000 = 0 ∧ total ≠ 0 then
              [Event.bulkWrite ops,
               if fail2 ci then Event.logFailedBulk else Event.logCompletedBulk]
            else []) := by
            split
            · cases fail1 ci <;> cases fail2 ci <;> simp [dropLogs]
            · rfl
          cases odoc with
          | none =>
              dsimp only
              have hih := ih (if total % 1000 = 0 ∧ total ≠ 0 then 0 else total)
                (if total % 1000 = 0 ∧ total ≠ 0 then [] else ops)
                (if total % 1000 = 0 ∧ total ≠ 0 then ci + 1 else ci)
              cases h1 : runScan d t fail1 rs
                  (if total % 1000 = 0 ∧ total ≠ 0 then 0 else total)
                  (if total % 1000 = 0 ∧ total ≠ 0 then [] else ops)
                  (if total % 1000 = 0 ∧ total ≠ 0 then ci + 1 else ci) with
              | error e =>
                  rw [h1] at hih
                  cases h2 : runScan d t fail2 rs
                      (if total % 1000 = 0 ∧ total ≠ 0 then 0 else total)
                      (if total % 1000 = 0 ∧ total ≠ 0 then [] else ops)
                      (if total % 1000 = 0 ∧ total ≠ 0 then ci + 1 else ci) with
                  | error e2 => rfl
                  | ok rr2 =>
                      rw [h2] at hih
                      obtain ⟨evs2, s2⟩ := rr2
                      exact absurd hih (by simp [scanView])
              | ok rr1 =>
                  rw [h1] at hih
                  obtain ⟨evs1, s1⟩ := rr1
                  cases h2 : runScan d t fail2 rs
                      (if total % 1000 = 0 ∧ total ≠ 0 then 0 else total)
                      (if total % 1000 = 0 ∧ total ≠ 0 then [] else ops)
                      (if total % 1000 = 0 ∧ total ≠ 0 then ci + 1 else ci) with
                  | error e2 =>
                      rw [h2] at hih
                      exact absurd hih (by simp [scanView])
                  | ok rr2 =>
                      rw [h2] at hih
                      obtain ⟨evs2, s2⟩ := rr2
                      simp only [scanView, Except.ok.injEq, Prod.mk.injEq] at hih
                      obtain ⟨hd, hs⟩ := hih
                      simp only [Except.map, scanView, Except.ok.injEq,
                        Prod.mk.injEq, dropLogs_append, hpre, hd, hs]
          | some doc =>
              dsimp only
              have hih := ih ((if total % 1000 = 0 ∧ total ≠ 0 then 0 else total) + 1)
                ((if total % 1000 = 0 ∧ total ≠ 0 then [] else ops) ++ [mkOp k doc])
                (if total % 1000 = 0 ∧ total ≠ 0 then ci + 1 else ci)
              cases h1 : runScan d t fail1 rs
                  ((if total % 1000 = 0 ∧ total ≠ 0 then 0 else total) + 1)
                  ((if total % 1000 = 0 ∧ total ≠ 0 then [] else ops) ++ [mkOp k doc])
                  (if total % 1000 = 0 ∧ total ≠ 0 then ci + 1 else ci) with
              | error e =>
                  rw [h1] at hih
                  cases h2 : runScan d t fail2 rs
                      ((if total % 1000 = 0 ∧ total ≠ 0 then 0 else total) + 1)
                      ((if total % 1000 = 0 ∧ total ≠ 0 then [] else ops) ++ [mkOp k doc])
                      (if total % 1000 = 0 ∧ total ≠ 0 then ci + 1 else ci) with
                  | error e2 => rfl
                  | ok rr2 =>
                      rw [h2] at hih
                      obtain ⟨evs2, s2⟩ := rr2
                      exact absurd hih (by simp [scanView])
              | ok rr1 =>
                  rw [h1] at hih
                  obtain ⟨evs1, s1⟩ := rr1
                  cases h2 : runScan d t fail2 rs
                      ((if total % 1000 = 0 ∧ total ≠ 0 then 0 else total) + 1)
                      ((if total % 1000 = 0 ∧ total ≠ 0 then [] else ops) ++ [mkOp k doc])
                      (if total % 1000 = 0 ∧ total ≠ 0 then ci + 1 else ci) with
                  | error e2 =>
                      rw [h2] at hih
                      exact absurd hih (by simp [scanView])
                  | ok rr2 =>
                      rw [h2] at hih
                      obtain ⟨evs2, s2⟩ := rr2
                      simp only [scanView, Except.ok.injEq, Prod.mk.injEq] at hih
                      obtain ⟨hd, hs⟩ := hih
                      simp only [Except.map, scanView, Except.ok.injEq,
                        Prod.mk.injEq, dropLogs_append, hpre, hd, hs]

theorem c9_sleep_inside_snapshot (d : Decoders) (t : String)
    (fail : Nat → Bool) (recs : List Rec) (evs : List Event)
    (hpass : passEvents d t fail recs = .ok evs) :
    ∃ body, evs = Event.txnBegin :: body ++ [Event.sleep 60, Event.txnEnd] ∧
      Event.txnBegin ∉ body ∧ Event.txnEnd ∉ body ∧
      ∀ s, Event.sleep s ∉ body := by
  obtain ⟨body, hb, hprop⟩ := passEvents_shape d t fail recs evs hpass
  exact ⟨body, hb,
    fun hmem => (hprop _ hmem).2.1 rfl,
    fun hmem => (hprop _ hmem).2.2 rfl,
    fun s hmem => (hprop _ hmem).1 s rfl⟩

theorem c8_sync_loop_progression (d : Decoders) (t : String)
    (fail : Nat → Bool) (recs : List Rec) (evs : List Event)
    (hpass : passEvents d t fail recs = .ok evs) :
    (∃ body, evs = Event.txnBegin :: body ++ [Event.sleep 60, Event.txnEnd] ∧
      ∀ s, Event.sleep s ∉ body) ∧
    (∀ n, ∃ rest, syncTrace d t fail recs (n + 1) = .ok (evs ++ rest) ∧
      (n ≠ 0 → rest.head? = some Event.txnBegin)) ∧
    (∀ fail2, ∃ evs2, passEvents d t fail2 recs = .ok evs2 ∧
      dropLogs evs2 = dropLogs evs) := by
  obtain ⟨body, hb, hprop⟩ := passEvents_shape d t fail recs evs hpass
  refine ⟨⟨body, hb, fun s hmem => (hprop _ hmem).1 s rfl⟩, ?_, ?_⟩
  · have haux : ∀ n, ∃ rest, syncTrace d t fail recs n = .ok rest ∧
        (n ≠ 0 → rest.head? = some Event.txnBegin) := by
      intro n
      induction n with
      | zero => exact ⟨[], rfl, fun h => absurd rfl h⟩
      | succ m ihm =>
          obtain ⟨rest, hr, _⟩ := ihm
          refine ⟨evs ++ rest, ?_, ?_⟩
          · rw [syncTrace, hpass, hr]
            rfl
          · intro _
            rw [hb]
            rfl
    intro n
    obtain ⟨rest, hr, hh⟩ := haux n
    refine ⟨rest, ?_, hh⟩
    rw [syncTrace, hpass, hr]
    rfl
  · intro fail2
    rw [passEvents] at hpass
    cases hrun : runScan d t fail recs 0 [] 0 with
    | error e => rw [hrun] at hpass; simp [Bind.bind, Except.bind] at hpass
    | ok r =>
        obtain ⟨evs0, tot', ops', ci'⟩ := r
        rw [hrun] at hpass
        simp only [Bind.bind, Except.bind, Except.ok.injEq] at hpass
        have hobl := runScan_fail_oblivious d t fail fail2 recs 0 [] 0
        rw [hrun] at hobl
        cases hrun2 : runScan d t fail2 recs 0 [] 0 with
        | error e =>
            rw [hrun2] at hobl
            exact absurd hobl (by simp [scanView])
        | ok r2 =>
            rw [hrun2] at hobl
            obtain ⟨evs02, tot2, ops2, ci2⟩ := r2
            simp only [scanView, Except.ok.injEq, Prod.mk.injEq] at hobl
            obtain ⟨hdl, htot, hops, hci⟩ := hobl
            subst htot; subst hops; subst hci
            refine ⟨Event.txnBegin :: (evs02 ++ (if tot' ≠ 0 then
                Event.bulkWrite (ops'.take tot') ::
                  (if fail2 ci' then [Event.logFailedFinal] else [])
              else []) ++ [Event.sleep 60, Event.txnEnd]), ?_, ?_⟩
            · rw [passEvents, hrun2]
              rfl
            · rw [← hpass]
              have hfin : dropLogs (if tot' ≠ 0 then
                  Event.bulkWrite (ops'.take tot') ::
                    (if fail2 ci' then [Event.logFailedFinal] else [])
                else []) = dropLogs (if tot' ≠ 0 then
                  Event.bulkWrite (ops'.take tot') ::
                    (if fail ci' then [Event.logFailedFinal] else [])
                else []) := by
                by_cases h0 : tot' = 0
                · simp [h0]
                · cases fail ci' <;> cases fail2 ci' <;>
                    simp [h0, dropLogs]
              simp only [dropLogs, List.filter_cons, List.filter_append] at hdl ⊢
              simp only [dropLogs, List.filter_cons, List.filter_append] at hfin
              rw [hdl, hfin]

theorem c8_sync_loop_progression_witness :
    ∃ body, ([Event.txnBegin, Event.bulkWrite [mkOp [13] (acctDoc "t")],
        Event.sleep 60, Event.txnEnd] : List Event) =
      Event.txnBegin :: body ++ [Event.sleep 60, Event.txnEnd] ∧
      ∀ s, Event.sleep s ∉ body :=
  (c8_sync_loop_progression d0 "t" (fun _ => false) [([13], [])] _ rfl).1

theorem c9_sleep_inside_snapshot_witness :
    ∃ body, ([Event.txnBegin, Event.bulkWrite [mkOp [13] (acctDoc "t")],
        Event.logFailedFinal, Event.sleep 60, Event.txnEnd] : List Event) =
      Event.txnBegin :: body ++ [Event.sleep 60, Event.txnEnd] ∧
      Event.txnBegin ∉ body ∧ Event.txnEnd ∉ body ∧
      ∀ s, Event.sleep s ∉ body :=
  c9_sleep_inside_snapshot d0 "t" (fun _ => true) [([13], [])] _ rfl

theorem badgerItrToJSON_not_supported (d : Decoders) (tag : Nat)
    (rest val : List Nat) (t : String) (h : tag ∉ supportedTags) :
    badgerItrToJSON d (tag :: rest) val t = .ok none := by
  have h38 : ¬ tag < 38 ∧ tag ≠ 39 ∧ tag ≠ 40 := by
    simpa [supportedTags, List.mem_range] using h
  rw [badgerItrToJSON.eq_def]
  split
  next heq => exact absurd heq (by simp)
  next tg rs heq =>
    obtain ⟨a, b⟩ : tag = tg ∧ rest = rs := by
      injection heq with a b; exact ⟨a, b⟩
    subst a; subst b
    split <;> first | rfl | omega

/-- C3 — Unknown-tag drop: for every key whose first byte is outside
the supported set `{0..37, 39, 40}` and every value, `BadgerItrToJSON`
returns no document, so the record contributes zero batch operations. -/
theorem c3_unknown_tag_drop (d : Decoders) (tag : Nat) (rest val : List Nat)
    (t : String) (h : tag ∉ supportedTags) :
    badgerItrToJSON d (tag :: rest) val t = .ok none :=
  badgerItrToJSON_not_supported d tag rest val t h

/-- Witness for C3 at the concrete unsupported tag 99. -/
theorem c3_unknown_tag_drop_witness :
    (99 : Nat) ∉ supportedTags ∧
      badgerItrToJSON d0 (99 :: [1, 2]) [5] "t" = .ok none :=
  ⟨by decide, c3_unknown_tag_drop d0 99 [1, 2] [5] "t" (by decide)⟩

/-- C4 — the tag-14 branch declares `var ret *lib.BlockHash` (nil) and
evaluates `ret[:]`, a nil dereference, before any decode check: the
dispatcher panics on every tag-14 record, for every value, instead of
skipping it. -/
theorem c4_tag14_always_panics (d : Decoders) (rest val : List Nat)
    (t : String) :
    badgerItrToJSON d (14 :: rest) val t = .error () := rfl
theorem keySwitch_plain (d : Decoders) (k : String) (orig : Value)
    (cur : Option Value) (h : k ∉ keySwitchNames) :
    keySwitch d k orig cur = .ok cur := by
  rw [keySwitch]
  rw [if_neg (fun hk => h (by rw [hk]; decide)),
    if_neg (fun hk => h (by rcases hk with hk | hk <;> rw [hk] <;> decide)),
    if_neg (fun hk => h (by
      simp only [keySwitchNames, List.mem_cons, List.mem_append]
      tauto)),
    if_neg (fun hk => h (by rw [hk]; decide)),
    if_neg (fun hk => h (by
      simp only [keySwitchNames, List.mem_cons, List.mem_append,
        List.mem_singleton]
      tauto)),
    if_neg (fun hk => h (by rw [hk]; decide)),
    if_neg (fun hk => h (by rw [hk]; decide))]

theorem simplifyEntry_plain_vStr (d : Decoders) (t : String) (k : String)
    (s : String) (h : k ∉ keySwitchNames) :
    simplifyEntry d t k (.vStr s) = .ok (.cons k (.vStr s) .nil) := by
  rw [simplifyEntry]
  simp [Value.isNull, typeSwitch, keySwitch_plain d k _ _ h,
    Bind.bind, Except.bind]

theorem simplifyEntry_plain_vNat (d : Decoders) (t : String) (k : String)
    (n : Nat) (h : k ∉ keySwitchNames) :
    simplifyEntry d t k (.vNat n) = .ok (.cons k (.vNat n) .nil) := by
  rw [simplifyEntry]
  simp [Value.isNull, typeSwitch, keySwitch_plain d k _ _ h,
    Bind.bind, Except.bind]

theorem simplifyEntry_plain_vBytes (d : Decoders) (t : String) (k : String)
    (b : List Nat) (h : k ∉ keySwitchNames) :
    simplifyEntry d t k (.vBytes b) = .ok (.cons k (.vBytes b) .nil) := by
  rw [simplifyEntry]
  simp [Value.isNull, typeSwitch, keySwitch_plain d k _ _ h,
    Bind.bind, Except.bind]

theorem simplifyEntry_plain_vBlockHash (d : Decoders) (t : String)
    (k : String) (hh : List Nat) (h : k ∉ keySwitchNames) :
    simplifyEntry d t k (.vBlockHash hh) =
      .ok (.cons k (.vStr (d.blockHashString hh)) .nil) := by
  rw [simplifyEntry]
  simp [Value.isNull, typeSwitch, keySwitch_plain d k _ _ h,
    Bind.bind, Except.bind]

theorem simplifyEntry_pubkey (d : Decoders) (t : String) (k : String)
    (b : List Nat) (h : k ∈ pubKeyNames) :
    simplifyEntry d t k (.vBytes b) =
      .ok (.cons k (.vStr (d.pkToStringBoth b)) .nil) := by
  have hne : k ≠ "PKID" ∧ k ≠ "HODLerPKID" ∧ k ≠ "CreatorPKID" := by
    fin_cases h <;> exact ⟨by decide, by decide, by decide⟩
  rw [simplifyEntry]
  simp only [Value.isNull, typeSwitch, Bind.bind, Except.bind]
  rw [keySwitch]
  simp [assertBytes, hne.1, hne.2.1, hne.2.2, h, Bind.bind, Except.bind]

theorem simplifyEntry_PKID_bytes (d : Decoders) (t : String) (b : List Nat) :
    simplifyEntry d t "PKID" (.vBytes b) =
      .ok (.cons "PKID" (.vStr (d.pkToStringBoth b)) .nil) := by
  rw [simplifyEntry]
  simp only [Value.isNull, typeSwitch, Bind.bind, Except.bind]
  rw [keySwitch]
  simp [assertBytes, Bind.bind, Except.bind]

theorem simplifyEntry_ParentStakeID_bytes (d : Decoders) (t : String)
    (b : List Nat) :
    simplifyEntry d t "ParentStakeID" (.vBytes b) =
      .ok (.cons "ParentStakeID" (.vStr (d.hexEncode b)) .nil) := by
  rw [simplifyEntry]
  simp only [Value.isNull, typeSwitch, Bind.bind, Except.bind]
  rw [keySwitch]
  simp [assertBytes, pubKeyNames, textNames, Bind.bind, Except.bind]

theorem simplifyEntry_Username_bytes (d : Decoders) (t : String)
    (b : List Nat) :
    simplifyEntry d t "Username" (.vBytes b) =
      .ok (.cons "Username" (.vStr (d.bytesToString b)) .nil) := by
  rw [simplifyEntry]
  simp only [Value.isNull, typeSwitch, Bind.bind, Except.bind]
  rw [keySwitch]
  simp [assertBytes, pubKeyNames, textNames, Bind.bind, Except.bind]

theorem simplifyEntries_cons (d : Decoders) (t : String) (k : String)
    (v : Value) (r : Entries) :
    simplifyEntries d t (.cons k v r) =
      (do
        let e ← simplifyEntry d t k v
        let r' ← simplifyEntries d t r
        .ok (e.append r') : Except Unit Entries) := by
  rw [simplifyEntries]

theorem simplifyEntries_nil (d : Decoders) (t : String) :
    simplifyEntries d t .nil = .ok .nil := by
  rw [simplifyEntries]

theorem lookupE_append (k : String) (a b : Entries) :
    (a.append b).lookupE k =
      match a.lookupE k with
      | some v => some v
      | none => b.lookupE k := by
  induction a using Entries.recE with
  | hnil => rfl
  | hcons k' v r ih =>
      by_cases hk : k' = k
      · simp [Entries.append, Entries.lookupE, hk]
      · simp [Entries.append, Entries.lookupE, hk, ih]

theorem lookupE_hasKey_false (k : String) (m : Entries)
    (h : m.hasKey k = false) : m.lookupE k = none := by
  induction m using Entries.recE with
  | hnil => rfl
  | hcons k' v r ih =>
      simp only [Entries.hasKey, Bool.or_eq_false_iff,
        decide_eq_false_iff_not] at h
      simp [Entries.lookupE, h.1, ih h.2]

theorem lookupE_replaceAll_same (k : String) (v : Value) (m : Entries)
    (h : m.hasKey k = true) : (m.replaceAll k v).lookupE k = some v := by
  induction m using Entries.recE with
  | hnil => simp [Entries.hasKey] at h
  | hcons k' v' r ih =>
      by_cases hk : k' = k
      · simp [Entries.replaceAll, Entries.lookupE, hk]
      · simp only [Entries.hasKey, Bool.or_eq_true, decide_eq_true_eq] at h
        rcases h with h | h
        · exact absurd h hk
        · simp [Entries.replaceAll, Entries.lookupE, hk, ih h]

theorem lookupE_replaceAll_other (k k' : String) (v : Value) (m : Entries)
    (h : k' ≠ k) : (m.replaceAll k v).lookupE k' = m.lookupE k' := by
  induction m using Entries.recE with
  | hnil => rfl
  | hcons k0 v0 r ih =>
      by_cases hk : k0 = k'
      · subst hk
        simp [Entries.replaceAll, Entries.lookupE, if_neg h]
      · simp [Entries.replaceAll, Entries.lookupE, hk, ih]

theorem lookupE_setKeyE_same (k : String) (v : Value) (m : Entries) :
    (m.setKeyE k v).lookupE k = some v := by
  rw [Entries.setKeyE]
  by_cases h : m.hasKey k
  · simp [h, lookupE_replaceAll_same k v m h]
  · simp only [h, if_false, Bool.false_eq_true]
    rw [lookupE_append]
    rw [lookupE_hasKey_false k m (by simpa using h)]
    simp [Entries.lookupE]

theorem lookupE_setKeyE_other (k k' : String) (v : Value) (m : Entries)
    (h : k' ≠ k) : (m.setKeyE k v).lookupE k' = m.lookupE k' := by
  rw [Entries.setKeyE]
  by_cases hh : m.hasKey k
  · simp [hh, lookupE_replaceAll_other k k' v m h]
  · simp only [hh, if_false, Bool.false_eq_true]
    rw [lookupE_append]
    cases hl : m.lookupE k' with
    | some w => rfl
    | none => simp [Entries.lookupE, if_neg (Ne.symm h)]

theorem typeSwitch_inr (d : Decoders) (t : String) (v : Value)
    (extra : Entries) (h : typeSwitch d t v = .ok (.inr extra)) :
    extra = .nil ∨ ∃ x, extra = .cons "ParentHash" x .nil := by
  cases v with
  | vMap m =>
      rw [typeSwitch] at h
      cases hm : simplifyEntries d t m with
      | error e => rw [hm] at h; simp [Bind.bind, Except.bind] at h
      | ok m' => rw [hm] at h; simp [Bind.bind, Except.bind] at h
  | vBlockNodePtr p =>
      match p with
      | none =>
          rw [typeSwitch] at h
          simp only [Except.ok.injEq, Sum.inr.injEq] at h
          exact Or.inr ⟨.vNull, h.symm⟩
      | some none => rw [typeSwitch] at h; simp at h
      | some (some hh) =>
          rw [typeSwitch] at h
          simp only [Except.ok.injEq, Sum.inr.injEq] at h
          exact Or.inr ⟨.vStr (d.blockHashString hh), h.symm⟩
  | vStakeEntry =>
      rw [typeSwitch] at h
      simp only [Except.ok.injEq, Sum.inr.injEq] at h
      exact Or.inl h.symm
  | vNull => simp [typeSwitch] at h
  | vStr s => simp [typeSwitch] at h
  | vNat n => simp [typeSwitch] at h
  | vBytes b => simp [typeSwitch] at h
  | vList l => simp [typeSwitch] at h
  | vUtxoType u => rw [typeSwitch] at h; simp at h
  | vBlockHash hh => rw [typeSwitch] at h; simp at h
  | vBlockHashPtr hp => cases hp <;> (rw [typeSwitch] at h; simp at h)
  | vBigInt ip => cases ip <;> (rw [typeSwitch] at h; simp at h)
  | vPKIDPtr bp => simp [typeSwitch] at h

theorem simplifyEntry_keys (d : Decoders) (t k0 : String) (v : Value)
    (e : Entries) (h : simplifyEntry d t k0 v = .ok e) :
    ∀ k1, k1 ≠ k0 → k1 ≠ "ParentHash" → e.lookupE k1 = none := by
  intro k1 hk0 hph
  rw [simplifyEntry] at h
  by_cases hn : v.isNull
  · rw [if_pos hn] at h
    simp only [Except.ok.injEq] at h
    subst h
    simp [Entries.lookupE, Ne.symm hk0]
  · rw [if_neg hn] at h
    cases hts : typeSwitch d t v with
    | error er => rw [hts] at h; simp [Bind.bind, Except.bind] at h
    | ok ts =>
        rw [hts] at h
        simp only [Bind.bind, Except.bind] at h
        cases ts with
        | inl cur =>
            dsimp only at h
            cases hks : keySwitch d k0 v (some cur) with
            | error er => rw [hks] at h; simp at h
            | ok fin =>
                rw [hks] at h
                simp only [Except.ok.injEq] at h
                subst h
                cases fin with
                | none => rfl
                | some v' => simp [Entries.lookupE, Ne.symm hk0]
        | inr extra =>
            dsimp only at h
            cases hks : keySwitch d k0 v none with
            | error er => rw [hks] at h; simp at h
            | ok fin =>
                rw [hks] at h
                simp only [Except.ok.injEq] at h
                subst h
                rw [lookupE_append]
                have hex := typeSwitch_inr d t v extra hts
                have hexl : extra.lookupE k1 = none := by
                  rcases hex with rfl | ⟨x, rfl⟩
                  · rfl
                  · simp [Entries.lookupE, Ne.symm hph]
                rw [hexl]
                cases fin with
                | none => rfl
                | some v' => simp [Entries.lookupE, Ne.symm hk0]

theorem simplifyEntries_preserve (d : Decoders) (t : String) (k : String)
    (s : String) (hk : k ∉ keySwitchNames) (hph : k ≠ "ParentHash") :
    ∀ m m', simplifyEntries d t m = .ok m' →
      m.lookupE k = some (.vStr s) → m'.lookupE k = some (.vStr s) := by
  intro m
  induction m using Entries.recE with
  | hnil =>
      intro m' h hl
      simp [Entries.lookupE] at hl
  | hcons k0 v0 r ih =>
      intro m' h hl
      rw [simplifyEntries_cons] at h
      cases he : simplifyEntry d t k0 v0 with
      | error er => rw [he] at h; simp [Bind.bind, Except.bind] at h
      | ok e =>
          rw [he] at h
          cases hr : simplifyEntries d t r with
          | error er => rw [hr] at h; simp [Bind.bind, Except.bind] at h
          | ok r' =>
              rw [hr] at h
              simp only [Bind.bind, Except.bind, Except.ok.injEq] at h
              subst h
              rw [lookupE_append]
              by_cases hk0 : k0 = k
              · subst hk0
                rw [Entries.lookupE, if_pos rfl] at hl
                injection hl with hl
                subst hl
                have := simplifyEntry_plain_vStr d t k0 s hk
                rw [he] at this
                injection this with this
                subst this
                simp [Entries.lookupE]
              · rw [Entries.lookupE, if_neg hk0] at hl
                rw [simplifyEntry_keys d t k0 v0 e he k
                  (fun hx => hk0 (hx.symm)) hph]
                exact ih r' hr hl

theorem simplifyFullE_preserve (d : Decoders) (t : String) (k : String)
    (s : String) (hk : k ∉ keySwitchNames) (hph : k ≠ "ParentHash")
    (htm : k ≠ "Time") (m m' : Entries)
    (h : simplifyFullE d t m = .ok m')
    (hl : m.lookupE k = some (.vStr s)) :
    m'.lookupE k = some (.vStr s) := by
  rw [simplifyFullE] at h
  cases he : simplifyEntries d t m with
  | error er => rw [he] at h; simp [Bind.bind, Except.bind] at h
  | ok e =>
      rw [he] at h
      simp only [Bind.bind, Except.bind, Except.ok.injEq] at h
      subst h
      rw [lookupE_setKeyE_other _ _ _ _ htm]
      exact simplifyEntries_preserve d t k s hk hph m e he hl

theorem c5_amended_metadata (d : Decoders) (tag : Nat) (rest val : List Nat)
    (t : String) (doc : Entries)
    (h : badgerItrToJSON d (tag :: rest) val t = .ok (some doc)) :
    (∃ p, doc.lookupE "BadgerKeyPrefix" = some (.vStr p) ∧
      (tag ≠ 16 → tag ≠ 40 → ∃ name, p = name ++ ":" ++ toString tag)) ∧
    (tag ≠ 9 → tag ≠ 13 → tag ≠ 16 →
      ∃ s, doc.lookupE "MongoMeta" = some (.vStr s)) := by
  by_cases htag : tag < 41
  swap
  · exfalso
    have hns : tag ∉ supportedTags := by
      simp only [supportedTags, List.mem_append, List.mem_range,
        List.mem_cons, List.mem_singleton, List.not_mem_nil, or_false]
      omega
    rw [badgerItrToJSON_not_supported d tag rest val t hns] at h
    simp at h
  interval_cases tag
  · -- tag 0
    rw [badgerItrToJSON.eq_def] at h
    dsimp only at h
    cases hdec : d.decodeMsgBlock val with
    | none => rw [hdec] at h; simp at h
    | some m =>
        rw [hdec] at h
        dsimp only at h
        cases hsim : simplifyFullE d t (m.setKeyE "BlockHash" (.vBlockHash (fix32 rest))) with
        | error er => rw [hsim] at h; simp [Bind.bind, Except.bind] at h
        | ok m2 =>
            rw [hsim] at h
            simp only [Bind.bind, Except.bind, Except.ok.injEq,
              Option.some.injEq] at h
            subst h
            refine ⟨⟨"_PrefixBlockHashToBlock:0", lookupE_setKeyE_same _ _ _,
              fun _ _ => ⟨"_PrefixBlockHashToBlock", rfl⟩⟩, fun _ _ _ => ⟨"A bitclout block and its corresponding blockhash.", ?_⟩⟩
            rw [lookupE_setKeyE_other _ _ _ _ (by decide)]
            exact lookupE_setKeyE_same _ _ _
  · -- tag 1
    rw [badgerItrToJSON.eq_def] at h
    dsimp only at h
    cases hdec : d.decodeBlockNode val with
    | none => rw [hdec] at h; simp at h
    | some m =>
        rw [hdec] at h
        dsimp only at h
        cases hsim : simplifyFullE d t m with
        | error er => rw [hsim] at h; simp [Bind.bind, Except.bind] at h
        | ok m2 =>
            rw [hsim] at h
            simp only [Bind.bind, Except.bind, Except.ok.injEq,
              Option.some.injEq] at h
            subst h
            refine ⟨⟨"_PrefixHeightHashToNodeInfo:1", lookupE_setKeyE_same _ _ _,
              fun _ _ => ⟨"_PrefixHeightHashToNodeInfo", rfl⟩⟩, fun _ _ _ => ⟨"A block node in the bitclout blockchain graph.", ?_⟩⟩
            rw [lookupE_setKeyE_other _ _ _ _ (by decide)]
            exact lookupE_setKeyE_same _ _ _
  · -- tag 2
    rw [badgerItrToJSON.eq_def] at h
    dsimp only at h
    cases hdec : d.decodeBlockNode val with
    | none => rw [hdec] at h; simp at h
    | some m =>
        rw [hdec] at h
        dsimp only at h
        cases hsim : simplifyFullE d t m with
        | error er => rw [hsim] at h; simp [Bind.bind, Except.bind] at h
        | ok m2 =>
            rw [hsim] at h
            simp only [Bind.bind, Except.bind, Except.ok.injEq,
              Option.some.injEq] at h
            subst h
            refine ⟨⟨"_PrefixBitcoinHeightHashToNodeInfo:2", lookupE_setKeyE_same _ _ _,
              fun _ _ => ⟨"_PrefixBitcoinHeightHashToNodeInfo", rfl⟩⟩, fun _ _ _ => ⟨"A block node in the bitcoin blockchain graph.", ?_⟩⟩
            rw [lookupE_setKeyE_other _ _ _ _ (by decide)]
            exact lookupE_setKeyE_same _ _ _
  · -- tag 3
    rw [badgerItrToJSON.eq_def] at h
    dsimp only at h
    simp only [Except.ok.injEq, Option.some.injEq] at h
    subst h
    exact ⟨⟨"_KeyBestBitCloutBlockHash:3", by simp [Entries.lookupE], fun _ _ => ⟨"_KeyBestBitCloutBlockHash", rfl⟩⟩, fun _ _ _ => ⟨"The hash of the front of the best BitClout Chain.", by simp [Entries.lookupE]⟩⟩
  · -- tag 4
    rw [badgerItrToJSON.eq_def] at h
    dsimp only at h
    simp only [Except.ok.injEq, Option.some.injEq] at h
    subst h
    exact ⟨⟨"_KeyBestBitcoinHeaderHash:4", by simp [Entries.lookupE], fun _ _ => ⟨"_KeyBestBitcoinHeaderHash", rfl⟩⟩, fun _ _ _ => ⟨"The hash of the front of the best Bitcoin Chain.", by simp [Entries.lookupE]⟩⟩
  · -- tag 5
    rw [badgerItrToJSON.eq_def] at h
    dsimp only at h
    cases hdec : d.decodeUtxoEntry val with
    | none => rw [hdec] at h; simp at h
    | some m =>
        rw [hdec] at h
        dsimp only at h
        cases hsim : simplifyFullE d t m with
        | error er => rw [hsim] at h; simp [Bind.bind, Except.bind] at h
        | ok m2 =>
            rw [hsim] at h
            simp only [Bind.bind, Except.bind, Except.ok.injEq,
              Option.some.injEq] at h
            subst h
            refine ⟨⟨"_PrefixUtxoKeyToUtxoEntry:5", lookupE_setKeyE_same _ _ _,
              fun _ _ => ⟨"_PrefixUtxoKeyToUtxoEntry", rfl⟩⟩, fun _ _ _ => ⟨"A UTXO Entry.", ?_⟩⟩
            rw [lookupE_setKeyE_other _ _ _ _ (by decide)]
            exact lookupE_setKeyE_same _ _ _
  · -- tag 6
    rw [badgerItrToJSON.eq_def] at h
    dsimp only at h
    cases hdec : d.decodeUtxoKey val with
    | none => rw [hdec] at h; simp at h
    | some m =>
        rw [hdec] at h
        dsimp only at h
        cases hsim : simplifyFullE d t m with
        | error er => rw [hsim] at h; simp [Bind.bind, Except.bind] at h
        | ok m2 =>
            rw [hsim] at h
            simp only [Bind.bind, Except.bind, Except.ok.injEq,
              Option.some.injEq] at h
            subst h
            refine ⟨⟨"_PrefixPositionToUtxoKey:6", lookupE_setKeyE_same _ _ _,
              fun _ _ => ⟨"_PrefixPositionToUtxoKey", rfl⟩⟩, fun _ _ _ => ⟨"A UTXO Key.", ?_⟩⟩
            rw [lookupE_setKeyE_other _ _ _ _ (by decide)]
            exact lookupE_setKeyE_same _ _ _
  · -- tag 7
    rw [badgerItrToJSON.eq_def] at h
    dsimp only at h
    cases hs1 : gslice (7 :: rest) 1 34 with
    | error er => rw [hs1] at h; simp at h
    | ok pubKey =>
        rw [hs1] at h
        cases hs2 : gslice (7 :: rest) 34 66 with
        | error er => rw [hs2] at h; simp at h
        | ok hashBytes =>
            rw [hs2] at h
            cases hs3 : gsliceFrom (7 :: rest) 66 with
            | error er => rw [hs3] at h; simp at h
            | ok tailBytes =>
                rw [hs3] at h
                dsimp only at h
                cases hb : beUint32 tailBytes with
                | error er => rw [hb] at h; simp at h
                | ok index =>
                    rw [hb] at h
                    dsimp only at h
                    cases hsim : simplifyFullE d t
                        (.cons "TxID" (.vBlockHash (fix32 hashBytes))
                        (.cons "Index" (.vNat index)
                        (.cons "PublicKey" (.vBytes pubKey) .nil))) with
                    | error er => rw [hsim] at h; simp [Bind.bind, Except.bind] at h
                    | ok m2 =>
                        rw [hsim] at h
                        simp only [Bind.bind, Except.bind, Except.ok.injEq,
                          Option.some.injEq] at h
                        subst h
                        refine ⟨⟨"_PrefixPubKeyUtxoKey:7", lookupE_setKeyE_same _ _ _,
                          fun _ _ => ⟨"_PrefixPubKeyUtxoKey", rfl⟩⟩,
                          fun _ _ _ => ⟨"Public key and UTXO key.", ?_⟩⟩
                        rw [lookupE_setKeyE_other _ _ _ _ (by decide)]
                        exact lookupE_setKeyE_same _ _ _
  · -- tag 8
    rw [badgerItrToJSON.eq_def] at h
    dsimp only at h
    simp only [Except.ok.injEq, Option.some.injEq] at h
    subst h
    exact ⟨⟨"_KeyUtxoNumEntries:8", by simp [Entries.lookupE], fun _ _ => ⟨"_KeyUtxoNumEntries", rfl⟩⟩, fun _ _ _ => ⟨"The number of utxo entries in the database.", by simp [Entries.lookupE]⟩⟩
  · -- tag 9
    rw [badgerItrToJSON.eq_def] at h
    dsimp only at h
    simp only [Except.ok.injEq, Option.some.injEq] at h
    subst h
    exact ⟨⟨"_PrefixBlockHashToUtxoOperations:9", by simp [Entries.lookupE], fun _ _ => ⟨"_PrefixBlockHashToUtxoOperations", rfl⟩⟩, fun h9 _ _ => absurd rfl h9⟩
  · -- tag 10
    rw [badgerItrToJSON.eq_def] at h
    dsimp only at h
    simp only [Except.ok.injEq, Option.some.injEq] at h
    subst h
    exact ⟨⟨"_KeyNanosPurchased:10", by simp [Entries.lookupE], fun _ _ => ⟨"_KeyNanosPurchased", rfl⟩⟩, fun _ _ _ => ⟨"The number of nanos purchased thus far.", by simp [Entries.lookupE]⟩⟩
  · -- tag 11
    rw [badgerItrToJSON.eq_def] at h
    dsimp only at h
    cases hsim : simplifyFullE d t
        (.cons "TxID" (.vBlockHash (fix32 rest))
              (.cons "MongoMeta" (.vStr "A processed bitcoin transaction.")
              (.cons "BadgerKeyPrefix" (.vStr "_PrefixBitcoinBurnTxIDs:11")
              (.cons "Time" (.vStr t) .nil)))) with
    | error er => rw [hsim] at h; simp [Bind.bind, Except.bind] at h
    | ok m2 =>
        rw [hsim] at h
        simp only [Bind.bind, Except.bind, Except.ok.injEq,
          Option.some.injEq] at h
        subst h
        refine ⟨⟨"_PrefixBitcoinBurnTxIDs:11", ?_, fun _ _ => ⟨"_PrefixBitcoinBurnTxIDs", rfl⟩⟩,
          fun _ _ _ => ⟨"A processed bitcoin transaction.", ?_⟩⟩
        · exact simplifyFullE_preserve d t _ _ (by decide) (by decide)
            (by decide) _ _ hsim (by simp [Entries.lookupE])
        · exact simplifyFullE_preserve d t _ _ (by decide) (by decide)
            (by decide) _ _ hsim (by simp [Entries.lookupE])
  · -- tag 12
    rw [badgerItrToJSON.eq_def] at h
    dsimp only at h
    cases hdec : d.decodeMessageEntry val with
    | none => rw [hdec] at h; simp at h
    | some m =>
        rw [hdec] at h
        dsimp only at h
        cases hsim : simplifyFullE d t m with
        | error er => rw [hsim] at h; simp [Bind.bind, Except.bind] at h
        | ok m2 =>
            rw [hsim] at h
            simp only [Bind.bind, Except.bind, Except.ok.injEq,
              Option.some.injEq] at h
            subst h
            refine ⟨⟨"_PrefixPublicKeyTimestampToPrivateMessage:12", lookupE_setKeyE_same _ _ _,
              fun _ _ => ⟨"_PrefixPublicKeyTimestampToPrivateMessage", rfl⟩⟩, fun _ _ _ => ⟨"An encrypted message between two users.", ?_⟩⟩
            rw [lookupE_setKeyE_other _ _ _ _ (by decide)]
            exact lookupE_setKeyE_same _ _ _
  · -- tag 13
    rw [badgerItrToJSON.eq_def] at h
    dsimp only at h
    simp only [Except.ok.injEq, Option.some.injEq] at h
    subst h
    exact ⟨⟨"_KeyAccountData:13", by simp [Entries.lookupE], fun _ _ => ⟨"_KeyAccountData", rfl⟩⟩, fun _ h13 _ => absurd rfl h13⟩
  · -- tag 14 (panics: hypothesis is impossible)
    rw [badgerItrToJSON.eq_def] at h
    dsimp only at h
    simp at h
  · -- tag 15
    rw [badgerItrToJSON.eq_def] at h
    dsimp only at h
    cases hdec : d.decodeTransactionMetadata val with
    | none => rw [hdec] at h; simp at h
    | some m =>
        rw [hdec] at h
        dsimp only at h
        cases hsim : simplifyFullE d t m with
        | error er => rw [hsim] at h; simp [Bind.bind, Except.bind] at h
        | ok m2 =>
            rw [hsim] at h
            simp only [Bind.bind, Except.bind, Except.ok.injEq,
              Option.some.injEq] at h
            subst h
            refine ⟨⟨"_PrefixTransactionIDToMetadata:15", lookupE_setKeyE_same _ _ _,
              fun _ _ => ⟨"_PrefixTransactionIDToMetadata", rfl⟩⟩, fun _ _ _ => ⟨"The transaction metadata for a particular transaction ID.", ?_⟩⟩
            rw [lookupE_setKeyE_other _ _ _ _ (by decide)]
            exact lookupE_setKeyE_same _ _ _
  · -- tag 16
    rw [badgerItrToJSON.eq_def] at h
    dsimp only at h
    simp only [Except.ok.injEq, Option.some.injEq] at h
    subst h
    exact ⟨⟨"_KeyAccountData:13", by simp [Entries.lookupE], fun h16 _ => absurd rfl h16⟩, fun _ _ h16 => absurd rfl h16⟩
  · -- tag 17
    rw [badgerItrToJSON.eq_def] at h
    dsimp only at h
    cases hdec : d.decodePostEntry val with
    | none => rw [hdec] at h; simp at h
    | some m =>
        rw [hdec] at h
        dsimp only at h
        cases hsim : simplifyFullE d t m with
        | error er => rw [hsim] at h; simp [Bind.bind, Except.bind] at h
        | ok m2 =>
            rw [hsim] at h
            simp only [Bind.bind, Except.bind, Except.ok.injEq,
              Option.some.injEq] at h
            subst h
            refine ⟨⟨"_PrefixPostHashToPostEntry:17", lookupE_setKeyE_same _ _ _,
              fun _ _ => ⟨"_PrefixPostHashToPostEntry", rfl⟩⟩, fun _ _ _ => ⟨"A User\x27s Post or Subcomment.", ?_⟩⟩
            rw [lookupE_setKeyE_other _ _ _ _ (by decide)]
            exact lookupE_setKeyE_same _ _ _
  · -- tag 18
    rw [badgerItrToJSON.eq_def] at h
    dsimp only at h
    cases hs1 : gsliceFrom (18 :: rest) 34 with
    | error er => rw [hs1] at h; simp at h
    | ok tailBytes =>
        rw [hs1] at h
        cases hs2 : gslice (18 :: rest) 1 34 with
        | error er => rw [hs2] at h; simp at h
        | ok pk =>
            rw [hs2] at h
            dsimp only at h
            cases hsim : simplifyFullE d t
                (.cons "PublicKey" (.vBytes pk)
              (.cons "PostHash" (.vBlockHash (fix32 tailBytes))
              (.cons "MongoMeta"
                (.vStr "An association between a PostHash and its corresponding public key.")
              (.cons "BadgerKeyPrefix"
                (.vStr "_PrefixPosterPublicKeyPostHash:18") .nil)))) with
            | error er => rw [hsim] at h; simp [Bind.bind, Except.bind] at h
            | ok m2 =>
                rw [hsim] at h
                simp only [Bind.bind, Except.bind, Except.ok.injEq,
                  Option.some.injEq] at h
                subst h
                refine ⟨⟨"_PrefixPosterPublicKeyPostHash:18", ?_, fun _ _ => ⟨"_PrefixPosterPublicKeyPostHash", rfl⟩⟩,
                  fun _ _ _ => ⟨"An association between a PostHash and its corresponding public key.", ?_⟩⟩
                · exact simplifyFullE_preserve d t _ _ (by decide) (by decide)
                    (by decide) _ _ hsim (by simp [Entries.lookupE])
                · exact simplifyFullE_preserve d t _ _ (by decide) (by decide)
                    (by decide) _ _ hsim (by simp [Entries.lookupE])
  · -- tag 19
    rw [badgerItrToJSON.eq_def] at h
    dsimp only at h
    cases hs1 : gsliceFrom (19 :: rest) 9 with
    | error er => rw [hs1] at h; simp at h
    | ok tailBytes =>
        rw [hs1] at h
        cases hs2 : gslice (19 :: rest) 1 9 with
        | error er => rw [hs2] at h; simp at h
        | ok stampBytes =>
            rw [hs2] at h
            dsimp only at h
            cases hsim : simplifyFullE d t
                (.cons "TstampNanos" (.vNat (d.decodeUint64 stampBytes))
              (.cons "PostHash" (.vBlockHash (fix32 tailBytes))
              (.cons "MongoMeta" (.vStr "An association between a PostHash and its corresponding time stamp (in nanos).")
              (.cons "BadgerKeyPrefix" (.vStr "_PrefixTstampNanosPostHash:19") .nil)))) with
            | error er => rw [hsim] at h; simp [Bind.bind, Except.bind] at h
            | ok m2 =>
                rw [hsim] at h
                simp only [Bind.bind, Except.bind, Except.ok.injEq,
                  Option.some.injEq] at h
                subst h
                refine ⟨⟨"_PrefixTstampNanosPostHash:19", ?_, fun _ _ => ⟨"_PrefixTstampNanosPostHash", rfl⟩⟩,
                  fun _ _ _ => ⟨"An association between a PostHash and its corresponding time stamp (in nanos).", ?_⟩⟩
                · exact simplifyFullE_preserve d t _ _ (by decide) (by decide)
                    (by decide) _ _ hsim (by simp [Entries.lookupE])
                · exact simplifyFullE_preserve d t _ _ (by decide) (by decide)
                    (by decide) _ _ hsim (by simp [Entries.lookupE])
  · -- tag 20
    rw [badgerItrToJSON.eq_def] at h
    dsimp only at h
    cases hs1 : gsliceFrom (20 :: rest) 9 with
    | error er => rw [hs1] at h; simp at h
    | ok tailBytes =>
        rw [hs1] at h
        cases hs2 : gslice (20 :: rest) 1 9 with
        | error er => rw [hs2] at h; simp at h
        | ok stampBytes =>
            rw [hs2] at h
            dsimp only at h
            cases hsim : simplifyFullE d t
                (.cons "TstampNanos" (.vNat (d.decodeUint64 stampBytes))
              (.cons "PostHash" (.vBlockHash (fix32 tailBytes))
              (.cons "MongoMeta" (.vStr "An association between a PostHash and its corresponding creator basis points founder reward.")
              (.cons "BadgerKeyPrefix" (.vStr "_PrefixCreatorBpsPostHash:20") .nil)))) with
            | error er => rw [hsim] at h; simp [Bind.bind, Except.bind] at h
            | ok m2 =>
                rw [hsim] at h
                simp only [Bind.bind, Except.bind, Except.ok.injEq,
                  Option.some.injEq] at h
                subst h
                refine ⟨⟨"_PrefixCreatorBpsPostHash:20", ?_, fun _ _ => ⟨"_PrefixCreatorBpsPostHash", rfl⟩⟩,
                  fun _ _ _ => ⟨"An association between a PostHash and its corresponding creator basis points founder reward.", ?_⟩⟩
                · exact simplifyFullE_preserve d t _ _ (by decide) (by decide)
                    (by decide) _ _ hsim (by simp [Entries.lookupE])
                · exact simplifyFullE_preserve d t _ _ (by decide) (by decide)
                    (by decide) _ _ hsim (by simp [Entries.lookupE])
  · -- tag 21
    rw [badgerItrToJSON.eq_def] at h
    dsimp only at h
    cases hs1 : gsliceFrom (21 :: rest) 9 with
    | error er => rw [hs1] at h; simp at h
    | ok tailBytes =>
        rw [hs1] at h
        cases hs2 : gslice (21 :: rest) 1 9 with
        | error er => rw [hs2] at h; simp at h
        | ok stampBytes =>
            rw [hs2] at h
            dsimp only at h
            cases hsim : simplifyFullE d t
                (.cons "TstampNanos" (.vNat (d.decodeUint64 stampBytes))
              (.cons "PostHash" (.vBlockHash (fix32 tailBytes))
              (.cons "MongoMeta" (.vStr "An association between a PostHash and its multiplier basis points.")
              (.cons "BadgerKeyPrefix" (.vStr "_PrefixMultipleBpsPostHash:21") .nil)))) with
            | error er => rw [hsim] at h; simp [Bind.bind, Except.bind] at h
            | ok m2 =>
                rw [hsim] at h
                simp only [Bind.bind, Except.bind, Except.ok.injEq,
                  Option.some.injEq] at h
                subst h
                refine ⟨⟨"_PrefixMultipleBpsPostHash:21", ?_, fun _ _ => ⟨"_PrefixMultipleBpsPostHash", rfl⟩⟩,
                  fun _ _ _ => ⟨"An association between a PostHash and its multiplier basis points.", ?_⟩⟩
                · exact simplifyFullE_preserve d t _ _ (by decide) (by decide)
                    (by decide) _ _ hsim (by simp [Entries.lookupE])
                · exact simplifyFullE_preserve d t _ _ (by decide) (by decide)
                    (by decide) _ _ hsim (by simp [Entries.lookupE])
  · -- tag 22
    rw [badgerItrToJSON.eq_def] at h
    dsimp only at h
    cases hs1 : gsliceFrom (22 :: rest) 42 with
    | error er => rw [hs1] at h; simp at h
    | ok tailBytes =>
        rw [hs1] at h
        cases hs2 : gslice (22 :: rest) 1 34 with
        | error er => rw [hs2] at h; simp at h
        | ok stakeID =>
            rw [hs2] at h
            cases hs3 : gslice (22 :: rest) 34 42 with
            | error er => rw [hs3] at h; simp at h
            | ok stampBytes =>
                rw [hs3] at h
                dsimp only at h
                cases hsim : simplifyFullE d t
                    (.cons "ParentStakeID" (.vBytes stakeID)
              (.cons "TstampNanos" (.vNat (d.decodeUint64 stampBytes))
              (.cons "PostHash" (.vBlockHash (fix32 tailBytes))
              (.cons "MongoMeta"
                (.vStr "An association between a comment PostHash and it\x27s corresponding parent post stakeID.")
              (.cons "BadgerKeyPrefix"
                (.vStr "_PrefixCommentParentStakeIDToPostHash:22") .nil))))) with
                | error er => rw [hsim] at h; simp [Bind.bind, Except.bind] at h
                | ok m2 =>
                    rw [hsim] at h
                    simp only [Bind.bind, Except.bind, Except.ok.injEq,
                      Option.some.injEq] at h
                    subst h
                    refine ⟨⟨"_PrefixCommentParentStakeIDToPostHash:22", ?_, fun _ _ => ⟨"_PrefixCommentParentStakeIDToPostHash", rfl⟩⟩,
                      fun _ _ _ => ⟨"An association between a comment PostHash and it\x27s corresponding parent post stakeID.", ?_⟩⟩
                    · exact simplifyFullE_preserve d t _ _ (by decide) (by decide)
                        (by decide) _ _ hsim (by simp [Entries.lookupE])
                    · exact simplifyFullE_preserve d t _ _ (by decide) (by decide)
                        (by decide) _ _ hsim (by simp [Entries.lookupE])
  · -- tag 23
    rw [badgerItrToJSON.eq_def] at h
    dsimp only at h
    cases hdec : d.decodeProfileEntry val with
    | none => rw [hdec] at h; simp at h
    | some m =>
        rw [hdec] at h
        dsimp only at h
        cases hsim : simplifyFullE d t m with
        | error er => rw [hsim] at h; simp [Bind.bind, Except.bind] at h
        | ok m2 =>
            rw [hsim] at h
            simp only [Bind.bind, Except.bind, Except.ok.injEq,
              Option.some.injEq] at h
            subst h
            refine ⟨⟨"_PrefixProfilePubKeyToProfileEntry:23", lookupE_setKeyE_same _ _ _,
              fun _ _ => ⟨"_PrefixProfilePubKeyToProfileEntry", rfl⟩⟩, fun _ _ _ => ⟨"A User\x27s Profile.", ?_⟩⟩
            rw [lookupE_setKeyE_other _ _ _ _ (by decide)]
            exact lookupE_setKeyE_same _ _ _
  · -- tag 24
    rw [badgerItrToJSON.eq_def] at h
    dsimp only at h
    cases hs1 : gslice (24 :: rest) 1 9 with
    | error er => rw [hs1] at h; simp at h
    | ok stakeBytes =>
        rw [hs1] at h
        cases hs2 : gsliceFrom (24 :: rest) 9 with
        | error er => rw [hs2] at h; simp at h
        | ok pk =>
            rw [hs2] at h
            dsimp only at h
            cases hsim : simplifyFullE d t
                (.cons "Stake" (.vNat (d.decodeUint64 stakeBytes))
              (.cons "PublicKey" (.vBytes pk)
              (.cons "MongoMeta" (.vStr "Depricated.")
              (.cons "BadgerKeyPrefix"
                (.vStr "_PrefixProfileStakeToProfilePubKey:24") .nil)))) with
            | error er => rw [hsim] at h; simp [Bind.bind, Except.bind] at h
            | ok m2 =>
                rw [hsim] at h
                simp only [Bind.bind, Except.bind, Except.ok.injEq,
                  Option.some.injEq] at h
                subst h
                refine ⟨⟨"_PrefixProfileStakeToProfilePubKey:24", ?_, fun _ _ => ⟨"_PrefixProfileStakeToProfilePubKey", rfl⟩⟩,
                  fun _ _ _ => ⟨"Depricated.", ?_⟩⟩
                · exact simplifyFullE_preserve d t _ _ (by decide) (by decide)
                    (by decide) _ _ hsim (by simp [Entries.lookupE])
                · exact simplifyFullE_preserve d t _ _ (by decide) (by decide)
                    (by decide) _ _ hsim (by simp [Entries.lookupE])
  · -- tag 25
    rw [badgerItrToJSON.eq_def] at h
    dsimp only at h
    cases hsim : simplifyFullE d t
        (.cons "Username" (.vBytes rest)
              (.cons "PKID" (.vBytes val)
              (.cons "MongoMeta"
                (.vStr "A user\x27s username and their corresponding PKID.")
              (.cons "BadgerKeyPrefix"
                (.vStr "_PrefixProfileUsernameToProfilePubKey:25") .nil)))) with
    | error er => rw [hsim] at h; simp [Bind.bind, Except.bind] at h
    | ok m2 =>
        rw [hsim] at h
        simp only [Bind.bind, Except.bind, Except.ok.injEq,
          Option.some.injEq] at h
        subst h
        refine ⟨⟨"_PrefixProfileUsernameToProfilePubKey:25", ?_, fun _ _ => ⟨"_PrefixProfileUsernameToProfilePubKey", rfl⟩⟩,
          fun _ _ _ => ⟨"A user\x27s username and their corresponding PKID.", ?_⟩⟩
        · exact simplifyFullE_preserve d t _ _ (by decide) (by decide)
            (by decide) _ _ hsim (by simp [Entries.lookupE])
        · exact simplifyFullE_preserve d t _ _ (by decide) (by decide)
            (by decide) _ _ hsim (by simp [Entries.lookupE])
  · -- tag 26
    rw [badgerItrToJSON.eq_def] at h
    dsimp only at h
    cases hs1 : gslice (26 :: rest) 2 10 with
    | error er => rw [hs1] at h; simp at h
    | ok amountBytes =>
        rw [hs1] at h
        cases hs2 : gsliceFrom (26 :: rest) 10 with
        | error er => rw [hs2] at h; simp at h
        | ok stakeID =>
            rw [hs2] at h
            dsimp only at h
            cases hsim : simplifyFullE d t
                ((Entries.cons "StakeType" (.vStr "")
                  (.cons "AmountNanos" (.vBytes amountBytes)
                  (.cons "StakeID" (.vBytes stakeID)
                  (.cons "MongoMeta"
                    (.vStr "A stake ID and its corresponding stakes nanos.")
                  (.cons "BadgerKeyPrefix"
                    (.vStr "_PrefixStakeIDTypeAmountStakeIDIndex:26")
                    .nil))))).setKeyE "StakeType"
                  (.vStr (if (26 :: rest : List Nat).getD 1 0 = 0 then "Post" else "Profile"))) with
            | error er => rw [hsim] at h; simp [Bind.bind, Except.bind] at h
            | ok m2 =>
                rw [hsim] at h
                simp only [Bind.bind, Except.bind, Except.ok.injEq,
                  Option.some.injEq] at h
                subst h
                refine ⟨⟨"_PrefixStakeIDTypeAmountStakeIDIndex:26", ?_,
                  fun _ _ => ⟨"_PrefixStakeIDTypeAmountStakeIDIndex", rfl⟩⟩,
                  fun _ _ _ => ⟨"A stake ID and its corresponding stakes nanos.", ?_⟩⟩
                · refine simplifyFullE_preserve d t _ _ (by decide) (by decide)
                    (by decide) _ _ hsim ?_
                  rw [lookupE_setKeyE_other _ _ _ _ (by decide)]
                  simp [Entries.lookupE]
                · refine simplifyFullE_preserve d t _ _ (by decide) (by decide)
                    (by decide) _ _ hsim ?_
                  rw [lookupE_setKeyE_other _ _ _ _ (by decide)]
                  simp [Entries.lookupE]
  · -- tag 27
    rw [badgerItrToJSON.eq_def] at h
    dsimp only at h
    simp only [Except.ok.injEq, Option.some.injEq] at h
    subst h
    exact ⟨⟨"_KeyUSDCentsPerBitcoinExchangeRate:27", by simp [Entries.lookupE], fun _ _ => ⟨"_KeyUSDCentsPerBitcoinExchangeRate", rfl⟩⟩, fun _ _ _ => ⟨"The exchange rate in USD Cents for a bitcoin.", by simp [Entries.lookupE]⟩⟩
  · -- tag 28
    rw [badgerItrToJSON.eq_def] at h
    dsimp only at h
    cases hs1 : gslice (28 :: rest) 1 34 with
    | error er => rw [hs1] at h; simp at h
    | ok followerB =>
        rw [hs1] at h
        cases hs2 : gsliceFrom (28 :: rest) 34 with
        | error er => rw [hs2] at h; simp at h
        | ok followedB =>
            rw [hs2] at h
            dsimp only at h
            cases hsim : simplifyFullE d t
                (.cons "FollowerPKID" (.vBytes followerB)
              (.cons "FollowedPKID" (.vBytes followedB)
              (.cons "MongoMeta"
                (.vStr "A user\x27s PKID (follower) and the PKID of those they follow (followed).")
              (.cons "BadgerKeyPrefix"
                (.vStr "_PrefixFollowerPubKeyToFollowedPubKey:28")
              (.cons "Time" (.vStr t) .nil))))) with
            | error er => rw [hsim] at h; simp [Bind.bind, Except.bind] at h
            | ok m2 =>
                rw [hsim] at h
                simp only [Bind.bind, Except.bind, Except.ok.injEq,
                  Option.some.injEq] at h
                subst h
                refine ⟨⟨"_PrefixFollowerPubKeyToFollowedPubKey:28", ?_, fun _ _ => ⟨"_PrefixFollowerPubKeyToFollowedPubKey", rfl⟩⟩,
                  fun _ _ _ => ⟨"A user\x27s PKID (follower) and the PKID of those they follow (followed).", ?_⟩⟩
                · exact simplifyFullE_preserve d t _ _ (by decide) (by decide)
                    (by decide) _ _ hsim (by simp [Entries.lookupE])
                · exact simplifyFullE_preserve d t _ _ (by decide) (by decide)
                    (by decide) _ _ hsim (by simp [Entries.lookupE])
  · -- tag 29
    rw [badgerItrToJSON.eq_def] at h
    dsimp only at h
    cases hs1 : gslice (29 :: rest) 1 34 with
    | error er => rw [hs1] at h; simp at h
    | ok followedB =>
        rw [hs1] at h
        cases hs2 : gsliceFrom (29 :: rest) 34 with
        | error er => rw [hs2] at h; simp at h
        | ok followerB =>
            rw [hs2] at h
            dsimp only at h
            cases hsim : simplifyFullE d t
                (.cons "FollowedPKID" (.vBytes followedB)
              (.cons "FollowerPKID" (.vBytes followerB)
              (.cons "MongoMeta"
                (.vStr "A user\x27s PKID (followed) and the PKID of those who follow them (follower).")
              (.cons "BadgerKeyPrefix"
                (.vStr "_PrefixFollowedPubKeyToFollowerPubKey:29") .nil)))) with
            | error er => rw [hsim] at h; simp [Bind.bind, Except.bind] at h
            | ok m2 =>
                rw [hsim] at h
                simp only [Bind.bind, Except.bind, Except.ok.injEq,
                  Option.some.injEq] at h
                subst h
                refine ⟨⟨"_PrefixFollowedPubKeyToFollowerPubKey:29", ?_, fun _ _ => ⟨"_PrefixFollowedPubKeyToFollowerPubKey", rfl⟩⟩,
                  fun _ _ _ => ⟨"A user\x27s PKID (followed) and the PKID of those who follow them (follower).", ?_⟩⟩
                · exact simplifyFullE_preserve d t _ _ (by decide) (by decide)
                    (by decide) _ _ hsim (by simp [Entries.lookupE])
                · exact simplifyFullE_preserve d t _ _ (by decide) (by decide)
                    (by decide) _ _ hsim (by simp [Entries.lookupE])
  · -- tag 30
    rw [badgerItrToJSON.eq_def] at h
    dsimp only at h
    cases hs1 : gsliceFrom (30 :: rest) 34 with
    | error er => rw [hs1] at h; simp at h
    | ok tailBytes =>
        rw [hs1] at h
        cases hs2 : gslice (30 :: rest) 1 34 with
        | error er => rw [hs2] at h; simp at h
        | ok pk =>
            rw [hs2] at h
            dsimp only at h
            cases hsim : simplifyFullE d t
                (.cons "PublicKey" (.vBytes pk)
              (.cons "LikedPostHash" (.vBlockHash (fix32 tailBytes))
              (.cons "MongoMeta"
                (.vStr "A user\x27s public key and the post hash of one of their liked posts.")
              (.cons "BadgerKeyPrefix"
                (.vStr "_PrefixLikerPubKeyToLikedPostHash:30") .nil)))) with
            | error er => rw [hsim] at h; simp [Bind.bind, Except.bind] at h
            | ok m2 =>
                rw [hsim] at h
                simp only [Bind.bind, Except.bind, Except.ok.injEq,
                  Option.some.injEq] at h
                subst h
                refine ⟨⟨"_PrefixLikerPubKeyToLikedPostHash:30", ?_, fun _ _ => ⟨"_PrefixLikerPubKeyToLikedPostHash", rfl⟩⟩,
                  fun _ _ _ => ⟨"A user\x27s public key and the post hash of one of their liked posts.", ?_⟩⟩
                · exact simplifyFullE_preserve d t _ _ (by decide) (by decide)
                    (by decide) _ _ hsim (by simp [Entries.lookupE])
                · exact simplifyFullE_preserve d t _ _ (by decide) (by decide)
                    (by decide) _ _ hsim (by simp [Entries.lookupE])
  · -- tag 31
    rw [badgerItrToJSON.eq_def] at h
    dsimp only at h
    cases hs1 : gslice (31 :: rest) 1 34 with
    | error er => rw [hs1] at h; simp at h
    | ok postHashB =>
        rw [hs1] at h
        dsimp only at h
        cases hsim : simplifyFullE d t
            (.cons "PublicKey" (.vBytes postHashB)
              (.cons "LikedPostHash" (.vBlockHash (fix32 postHashB))
              (.cons "MongoMeta"
                (.vStr "A PostHash and a corresponding public key of someone who liked that post.")
              (.cons "BadgerKeyPrefix"
                (.vStr "_PrefixLikedPostHashToLikerPubKey:31") .nil)))) with
        | error er => rw [hsim] at h; simp [Bind.bind, Except.bind] at h
        | ok m2 =>
            rw [hsim] at h
            simp only [Bind.bind, Except.bind, Except.ok.injEq,
              Option.some.injEq] at h
            subst h
            refine ⟨⟨"_PrefixLikedPostHashToLikerPubKey:31", ?_, fun _ _ => ⟨"_PrefixLikedPostHashToLikerPubKey", rfl⟩⟩,
              fun _ _ _ => ⟨"A PostHash and a corresponding public key of someone who liked that post.", ?_⟩⟩
            · exact simplifyFullE_preserve d t _ _ (by decide) (by decide)
                (by decide) _ _ hsim (by simp [Entries.lookupE])
            · exact simplifyFullE_preserve d t _ _ (by decide) (by decide)
                (by decide) _ _ hsim (by simp [Entries.lookupE])
  · -- tag 32
    rw [badgerItrToJSON.eq_def] at h
    dsimp only at h
    cases hs1 : gsliceFrom (32 :: rest) 9 with
    | error er => rw [hs1] at h; simp at h
    | ok pkid =>
        rw [hs1] at h
        cases hs2 : gslice (32 :: rest) 1 9 with
        | error er => rw [hs2] at h; simp at h
        | ok lockedBytes =>
            rw [hs2] at h
            dsimp only at h
            cases hsim : simplifyFullE d t
                (.cons "PKID" (.vBytes pkid)
              (.cons "BitCloutLockedNanos" (.vNat (d.decodeUint64 lockedBytes))
              (.cons "MongoMeta"
                (.vStr "The amount of BitClout locked in a particular profile\x27s PKID.")
              (.cons "BadgerKeyPrefix"
                (.vStr "_PrefixCreatorBitCloutLockedNanosCreatorPubKeyIIndex:32")
                .nil)))) with
            | error er => rw [hsim] at h; simp [Bind.bind, Except.bind] at h
            | ok m2 =>
                rw [hsim] at h
                simp only [Bind.bind, Except.bind, Except.ok.injEq,
                  Option.some.injEq] at h
                subst h
                refine ⟨⟨"_PrefixCreatorBitCloutLockedNanosCreatorPubKeyIIndex:32", ?_, fun _ _ => ⟨"_PrefixCreatorBitCloutLockedNanosCreatorPubKeyIIndex", rfl⟩⟩,
                  fun _ _ _ => ⟨"The amount of BitClout locked in a particular profile\x27s PKID.", ?_⟩⟩
                · exact simplifyFullE_preserve d t _ _ (by decide) (by decide)
                    (by decide) _ _ hsim (by simp [Entries.lookupE])
                · exact simplifyFullE_preserve d t _ _ (by decide) (by decide)
                    (by decide) _ _ hsim (by simp [Entries.lookupE])
  · -- tag 33
    rw [badgerItrToJSON.eq_def] at h
    dsimp only at h
    cases hdec : d.decodeBalanceEntry val with
    | none => rw [hdec] at h; simp at h
    | some m =>
        rw [hdec] at h
        dsimp only at h
        cases hsim : simplifyFullE d t m with
        | error er => rw [hsim] at h; simp [Bind.bind, Except.bind] at h
        | ok m2 =>
            rw [hsim] at h
            simp only [Bind.bind, Except.bind, Except.ok.injEq,
              Option.some.injEq] at h
            subst h
            refine ⟨⟨"_PrefixHODLerPubKeyCreatorPubKeyToBalanceEntry:33", lookupE_setKeyE_same _ _ _,
              fun _ _ => ⟨"_PrefixHODLerPubKeyCreatorPubKeyToBalanceEntry", rfl⟩⟩, fun _ _ _ => ⟨"A user\x27s (HODLerPubKey) balance of held (CreatorPubKey).", ?_⟩⟩
            rw [lookupE_setKeyE_other _ _ _ _ (by decide)]
            exact lookupE_setKeyE_same _ _ _
  · -- tag 34
    rw [badgerItrToJSON.eq_def] at h
    dsimp only at h
    cases hdec : d.decodeBalanceEntry val with
    | none => rw [hdec] at h; simp at h
    | some m =>
        rw [hdec] at h
        dsimp only at h
        cases hsim : simplifyFullE d t m with
        | error er => rw [hsim] at h; simp [Bind.bind, Except.bind] at h
        | ok m2 =>
            rw [hsim] at h
            simp only [Bind.bind, Except.bind, Except.ok.injEq,
              Option.some.injEq] at h
            subst h
            refine ⟨⟨"_PrefixCreatorPubKeyHODLerPubKeyToBalanceEntry:34", lookupE_setKeyE_same _ _ _,
              fun _ _ => ⟨"_PrefixCreatorPubKeyHODLerPubKeyToBalanceEntry", rfl⟩⟩, fun _ _ _ => ⟨"A ceator\x27s (CreatorPubKey) hodlers (HODLerPubKey) and their associated balances.", ?_⟩⟩
            rw [lookupE_setKeyE_other _ _ _ _ (by decide)]
            exact lookupE_setKeyE_same _ _ _
  · -- tag 35
    rw [badgerItrToJSON.eq_def] at h
    dsimp only at h
    cases hs1 : gsliceFrom (35 :: rest) 42 with
    | error er => rw [hs1] at h; simp at h
    | ok tailBytes =>
        rw [hs1] at h
        cases hs2 : gslice (35 :: rest) 1 34 with
        | error er => rw [hs2] at h; simp at h
        | ok pk =>
            rw [hs2] at h
            cases hs3 : gslice (35 :: rest) 34 42 with
            | error er => rw [hs3] at h; simp at h
            | ok stampBytes =>
                rw [hs3] at h
                dsimp only at h
                cases hsim : simplifyFullE d t
                    (.cons "PublicKey" (.vBytes pk)
              (.cons "PostHash" (.vBlockHash (fix32 tailBytes))
              (.cons "TStampNanos" (.vNat (d.decodeUint64 stampBytes))
              (.cons "MongoMeta"
                (.vStr "The PostHash of a post generated by a user\x27s public key and the corresponding time in nanos.")
              (.cons "BadgerKeyPrefix"
                (.vStr "_PrefixPosterPublicKeyTimestampPostHash:35") .nil))))) with
                | error er => rw [hsim] at h; simp [Bind.bind, Except.bind] at h
                | ok m2 =>
                    rw [hsim] at h
                    simp only [Bind.bind, Except.bind, Except.ok.injEq,
                      Option.some.injEq] at h
                    subst h
                    refine ⟨⟨"_PrefixPosterPublicKeyTimestampPostHash:35", ?_, fun _ _ => ⟨"_PrefixPosterPublicKeyTimestampPostHash", rfl⟩⟩,
                      fun _ _ _ => ⟨"The PostHash of a post generated by a user\x27s public key and the corresponding time in nanos.", ?_⟩⟩
                    · exact simplifyFullE_preserve d t _ _ (by decide) (by decide)
                        (by decide) _ _ hsim (by simp [Entries.lookupE])
                    · exact simplifyFullE_preserve d t _ _ (by decide) (by decide)
                        (by decide) _ _ hsim (by simp [Entries.lookupE])
  · -- tag 36
    rw [badgerItrToJSON.eq_def] at h
    dsimp only at h
    cases hdec : d.decodePKIDEntry val with
    | none => rw [hdec] at h; simp at h
    | some m =>
        rw [hdec] at h
        dsimp only at h
        cases hpk : Entries.lookupE "PKID" m with
        | none => rw [hpk] at h; simp at h
        | some v =>
            rw [hpk] at h
            cases v with
            | vNull => simp at h
            | vStr s => simp at h
            | vNat n => simp at h
            | vBytes b2 => simp at h
            | vList l => simp at h
            | vMap mm => simp at h
            | vUtxoType u => simp at h
            | vBlockHash bh => simp at h
            | vBlockHashPtr bp2 => simp at h
            | vBlockNodePtr bn => simp at h
            | vBigInt bi => simp at h
            | vStakeEntry => simp at h
            | vPKIDPtr bp =>
                cases bp with
                | none => simp at h
                | some b =>
                    dsimp only at h
                    cases hsim : simplifyFullE d t (m.setKeyE "PKID" (.vBytes b)) with
                    | error er => rw [hsim] at h; simp [Bind.bind, Except.bind] at h
                    | ok m2 =>
                        rw [hsim] at h
                        simp only [Bind.bind, Except.bind, Except.ok.injEq,
                          Option.some.injEq] at h
                        subst h
                        refine ⟨⟨"_PrefixPublicKeyToPKID:36", lookupE_setKeyE_same _ _ _,
                          fun _ _ => ⟨"_PrefixPublicKeyToPKID", rfl⟩⟩,
                          fun _ _ _ => ⟨"A mapping of a public key to it\x27s corresponding PKID.", ?_⟩⟩
                        rw [lookupE_setKeyE_other _ _ _ _ (by decide)]
                        exact lookupE_setKeyE_same _ _ _
  · -- tag 37
    rw [badgerItrToJSON.eq_def] at h
    dsimp only at h
    cases hs1 : gslice (37 :: rest) 1 34 with
    | error er => rw [hs1] at h; simp at h
    | ok pkid =>
        rw [hs1] at h
        dsimp only at h
        cases hsim : simplifyFullE d t
            (.cons "PublicKey" (.vBytes val)
              (.cons "PKID" (.vBytes pkid)
              (.cons "MongoMeta"
                (.vStr "A map of a PKID to it\x27s corresponding public key.")
              (.cons "BadgerKeyPrefix"
                (.vStr "_PrefixPKIDToPublicKey:37") .nil)))) with
        | error er => rw [hsim] at h; simp [Bind.bind, Except.bind] at h
        | ok m2 =>
            rw [hsim] at h
            simp only [Bind.bind, Except.bind, Except.ok.injEq,
              Option.some.injEq] at h
            subst h
            refine ⟨⟨"_PrefixPKIDToPublicKey:37", ?_, fun _ _ => ⟨"_PrefixPKIDToPublicKey", rfl⟩⟩,
              fun _ _ _ => ⟨"A map of a PKID to it\x27s corresponding public key.", ?_⟩⟩
            · exact simplifyFullE_preserve d t _ _ (by decide) (by decide)
                (by decide) _ _ hsim (by simp [Entries.lookupE])
            · exact simplifyFullE_preserve d t _ _ (by decide) (by decide)
                (by decide) _ _ hsim (by simp [Entries.lookupE])
  · -- tag 38 (unsupported)
    rw [badgerItrToJSON.eq_def] at h
    dsimp only at h
    simp at h
  · -- tag 39
    rw [badgerItrToJSON.eq_def] at h
    dsimp only at h
    cases hdec : d.decodeRecloutEntry val with
    | none => rw [hdec] at h; simp at h
    | some m =>
        rw [hdec] at h
        dsimp only at h
        cases hsim : simplifyFullE d t m with
        | error er => rw [hsim] at h; simp [Bind.bind, Except.bind] at h
        | ok m2 =>
            rw [hsim] at h
            simp only [Bind.bind, Except.bind, Except.ok.injEq,
              Option.some.injEq] at h
            subst h
            refine ⟨⟨"_PrefixReclouterPubKeyRecloutedPostHashToRecloutPostHash:39", lookupE_setKeyE_same _ _ _,
              fun _ _ => ⟨"_PrefixReclouterPubKeyRecloutedPostHashToRecloutPostHash", rfl⟩⟩, fun _ _ _ => ⟨"A user\x27s public key and the post hash of one of the post they reclouted", ?_⟩⟩
            rw [lookupE_setKeyE_other _ _ _ _ (by decide)]
            exact lookupE_setKeyE_same _ _ _
  · -- tag 40
    rw [badgerItrToJSON.eq_def] at h
    dsimp only at h
    cases hdec : d.decodeGlobalParams val with
    | none => rw [hdec] at h; simp at h
    | some m =>
        rw [hdec] at h
        simp only [Except.ok.injEq, Option.some.injEq] at h
        subst h
        refine ⟨⟨"_KeyGlobalPArams", lookupE_setKeyE_same _ _ _,
          fun _ h40 => absurd rfl h40⟩,
          fun _ _ _ => ⟨"Global Params Entry", ?_⟩⟩
        rw [lookupE_setKeyE_other _ _ _ _ (by decide)]
        exact lookupE_setKeyE_same _ _ _

/-- C5 counterexample: a tag-9 record yields a document with no
`MongoMeta` field at all, refuting the claim that every emitted
document carries one. -/
theorem c5_tag9_missing_mongometa :
    badgerItrToJSON d0 [9] [] "t" =
      .ok (some (.cons "BadgerKeyPrefix"
        (.vStr "_PrefixBlockHashToUtxoOperations:9")
        (.cons "Time" (.vStr "t") .nil))) ∧
    Entries.lookupE "MongoMeta"
      (.cons "BadgerKeyPrefix" (.vStr "_PrefixBlockHashToUtxoOperations:9")
        (.cons "Time" (.vStr "t") .nil)) = none :=
  ⟨rfl, rfl⟩

/-- Witness for the amended C5 at the concrete tag-3 record. -/
theorem c5_amended_metadata_witness :
    (∃ p, Entries.lookupE "BadgerKeyPrefix"
        (.cons "Hash" (.vStr "bh")
        (.cons "MongoMeta"
          (.vStr "The hash of the front of the best BitClout Chain.")
        (.cons "BadgerKeyPrefix" (.vStr "_KeyBestBitCloutBlockHash:3")
        (.cons "Time" (.vStr "t") .nil)))) = some (.vStr p) ∧
      ((3 : Nat) ≠ 16 → (3 : Nat) ≠ 40 →
        ∃ name, p = name ++ ":" ++ toString (3 : Nat))) ∧
    ((3 : Nat) ≠ 9 → (3 : Nat) ≠ 13 → (3 : Nat) ≠ 16 →
      ∃ s, Entries.lookupE "MongoMeta"
        (.cons "Hash" (.vStr "bh")
        (.cons "MongoMeta"
          (.vStr "The hash of the front of the best BitClout Chain.")
        (.cons "BadgerKeyPrefix" (.vStr "_KeyBestBitCloutBlockHash:3")
        (.cons "Time" (.vStr "t") .nil)))) = some (.vStr s)) :=
  c5_amended_metadata d0 3 [] [] "t"
    (.cons "Hash" (.vStr "bh")
      (.cons "MongoMeta"
        (.vStr "The hash of the front of the best BitClout Chain.")
      (.cons "BadgerKeyPrefix" (.vStr "_KeyBestBitCloutBlockHash:3")
      (.cons "Time" (.vStr "t") .nil)))) rfl
theorem simplify_tag31_doc (d : Decoders) (t : String) (s : List Nat) :
    simplifyFullE d t
      (.cons "PublicKey" (.vBytes s)
      (.cons "LikedPostHash" (.vBlockHash (fix32 s))
      (.cons "MongoMeta"
        (.vStr "A PostHash and a corresponding public key of someone who liked that post.")
      (.cons "BadgerKeyPrefix"
        (.vStr "_PrefixLikedPostHashToLikerPubKey:31") .nil)))) =
    .ok (.cons "PublicKey" (.vStr (d.pkToStringBoth s))
      (.cons "LikedPostHash" (.vStr (d.blockHashString (fix32 s)))
      (.cons "MongoMeta"
        (.vStr "A PostHash and a corresponding public key of someone who liked that post.")
      (.cons "BadgerKeyPrefix"
        (.vStr "_PrefixLikedPostHashToLikerPubKey:31")
      (.cons "Time" (.vStr t) .nil))))) := by
  rw [simplifyFullE, simplifyEntries_cons, simplifyEntries_cons,
    simplifyEntries_cons, simplifyEntries_cons, simplifyEntries_nil,
    simplifyEntry_pubkey d t "PublicKey" s (by decide),
    simplifyEntry_plain_vBlockHash d t "LikedPostHash" (fix32 s) (by decide),
    simplifyEntry_plain_vStr d t "MongoMeta" _ (by decide),
    simplifyEntry_plain_vStr d t "BadgerKeyPrefix" _ (by decide)]
  simp [Bind.bind, Except.bind, Entries.append, Entries.setKeyE,
    Entries.hasKey]

theorem c10_tag31_aliasing (d : Decoders) (val : List Nat) (t : String)
    (key : List Nat) (h31 : key.head? = some 31) (hlen : 34 ≤ key.length) :
    badgerItrToJSON d key val t = .ok (some
      (.cons "PublicKey" (.vStr (d.pkToStringBoth ((key.drop 1).take 33)))
      (.cons "LikedPostHash"
        (.vStr (d.blockHashString (fix32 ((key.drop 1).take 33))))
      (.cons "MongoMeta"
        (.vStr "A PostHash and a corresponding public key of someone who liked that post.")
      (.cons "BadgerKeyPrefix"
        (.vStr "_PrefixLikedPostHashToLikerPubKey:31")
      (.cons "Time" (.vStr t) .nil)))))) ∧
    (∀ key' val', key'.take 34 = key.take 34 →
      badgerItrToJSON d key' val' t = badgerItrToJSON d key val' t) := by
  obtain ⟨rest, rfl⟩ : ∃ r, key = 31 :: r := by
    cases key with
    | nil => simp at h31
    | cons a l =>
        simp only [List.head?_cons, Option.some.injEq] at h31
        exact ⟨l, by rw [h31]⟩
  have hrl : 33 ≤ rest.length := by
    simpa using hlen
  have hs : gslice (31 :: rest) 1 34 = .ok (rest.take 33) := by
    rw [gslice, if_pos ⟨by omega, by simp; omega⟩]
    rfl
  constructor
  · rw [badgerItrToJSON.eq_def]
    dsimp only
    rw [hs]
    dsimp only
    rw [simplify_tag31_doc]
    rfl
  · intro key' val' htake
    obtain ⟨rest', rfl, htk⟩ :
        ∃ r, key' = 31 :: r ∧ r.take 33 = rest.take 33 := by
      cases key' with
      | nil => simp at htake
      | cons a l =>
          rw [show (34 : Nat) = 33 + 1 from rfl, List.take_succ_cons,
            List.take_succ_cons] at htake
          injection htake with hh ht
          exact ⟨l, by rw [hh], ht⟩
    have hrl' : 33 ≤ rest'.length := by
      have := congrArg List.length htk
      simp only [List.length_take] at this
      omega
    have hs' : gslice (31 :: rest') 1 34 = .ok (rest.take 33) := by
      rw [gslice, if_pos ⟨by omega, by simp; omega⟩]
      simp [htk]
    rw [badgerItrToJSON.eq_def]
    dsimp only
    rw [hs']
    rw [badgerItrToJSON.eq_def]
    dsimp only
    rw [hs]

theorem c10_tag31_aliasing_witness :
    badgerItrToJSON d0 (31 :: List.replicate 33 7) [] "t" = .ok (some
      (.cons "PublicKey" (.vStr "pk")
      (.cons "LikedPostHash" (.vStr "bh")
      (.cons "MongoMeta"
        (.vStr "A PostHash and a corresponding public key of someone who liked that post.")
      (.cons "BadgerKeyPrefix"
        (.vStr "_PrefixLikedPostHashToLikerPubKey:31")
      (.cons "Time" (.vStr "t") .nil)))))) :=
  (c10_tag31_aliasing d0 [] "t" (31 :: List.replicate 33 7) rfl (by simp)).1

theorem normV_eq_self (t : String) (v : Value)
    (h : ∀ m, v ≠ Value.vMap m) : normV t v = v := by
  cases v <;> first | rfl | exact absurd rfl (h _)

theorem simplifyEntries_benign (d : Decoders) (t : String) :
    ∀ m, benignE m = true → simplifyEntries d t m = .ok (normE t m) := by
  refine @Entries.recVE
    (fun v => benignV v = true → typeSwitch d t v = .ok (.inl (normV t v)))
    (fun m => benignE m = true → simplifyEntries d t m = .ok (normE t m))
    ?_ ?_ ?_
  · intro v hsub hb
    cases v with
    | vMap m =>
        rw [typeSwitch, hsub m rfl (by simpa [benignV] using hb)]
        simp [Bind.bind, Except.bind, normV]
    | vNull => simp [typeSwitch, normV]
    | vStr s => simp [typeSwitch, normV]
    | vNat n => simp [typeSwitch, normV]
    | vBytes b => simp [typeSwitch, normV]
    | vList l => simp [typeSwitch, normV]
    | vUtxoType u => simp [benignV] at hb
    | vBlockHash hh => simp [benignV] at hb
    | vBlockHashPtr hp => simp [benignV] at hb
    | vBlockNodePtr p => simp [benignV] at hb
    | vBigInt i => simp [benignV] at hb
    | vStakeEntry => simp [benignV] at hb
    | vPKIDPtr b => simp [benignV] at hb
  · intro _
    rw [simplifyEntries_nil, normE]
  · intro k v r hv hr hb
    simp only [benignE, Bool.and_eq_true, decide_eq_true_eq] at hb
    obtain ⟨⟨hk, hbv⟩, hbr⟩ := hb
    rw [simplifyEntries_cons, hr hbr, normE]
    by_cases hn : v.isNull
    · have hvn : v = .vNull := by
        cases v <;> simp [Value.isNull] at hn ⊢
      subst hvn
      rw [simplifyEntry]
      simp [Value.isNull, Bind.bind, Except.bind, Entries.append, normV]
    · rw [simplifyEntry, if_neg hn, hv hbv]
      simp only [Bind.bind, Except.bind]
      rw [keySwitch_plain d k _ _ hk]
      simp [Entries.append]

theorem simplifyFullE_benign (d : Decoders) (t : String) (m : Entries)
    (h : benignE m = true) : simplifyFullE d t m = .ok (normFull t m) := by
  rw [simplifyFullE, simplifyEntries_benign d t m h]
  simp [Bind.bind, Except.bind, normFull]

theorem benignE_append (a b : Entries) (ha : benignE a = true)
    (hb : benignE b = true) : benignE (a.append b) = true := by
  induction a using Entries.recE with
  | hnil => simpa [Entries.append] using hb
  | hcons k v r ih =>
      simp only [benignE, Bool.and_eq_true] at ha
      simp [Entries.append, benignE, ha.1.1, ha.1.2, ih ha.2]

theorem benignE_replaceAll (k : String) (v : Value) (m : Entries)
    (hv : benignV v = true) (hm : benignE m = true) :
    benignE (m.replaceAll k v) = true := by
  induction m using Entries.recE with
  | hnil => rfl
  | hcons k' v' r ih =>
      simp only [benignE, Bool.and_eq_true] at hm
      by_cases hk : k' = k
      · have hkn : k ∉ keySwitchNames := by
          rw [← hk]
          exact of_decide_eq_true hm.1.1
        simp [Entries.replaceAll, hk, benignE, hkn, hv, ih hm.2]
      · simp [Entries.replaceAll, hk, benignE, hm.1.1, hm.1.2, ih hm.2]

theorem benignE_setKeyE (k : String) (v : Value) (m : Entries)
    (hk : k ∉ keySwitchNames) (hv : benignV v = true)
    (hm : benignE m = true) : benignE (m.setKeyE k v) = true := by
  rw [Entries.setKeyE]
  by_cases h : m.hasKey k
  · simp only [h, if_true]
    exact benignE_replaceAll k v m hv hm
  · simp only [h, if_false, Bool.false_eq_true]
    exact benignE_append _ _ hm (by simp [benignE, hk, hv])

theorem benignE_norm (t : String) :
    ∀ m, benignE m = true → benignE (normE t m) = true := by
  refine @Entries.recVE
    (fun v => benignV v = true → benignV (normV t v) = true)
    (fun m => benignE m = true → benignE (normE t m) = true)
    ?_ ?_ ?_
  · intro v hsub hb
    cases v with
    | vMap m =>
        rw [normV]
        simp only [benignV] at hb ⊢
        exact benignE_setKeyE _ _ _ (by decide) (by rfl)
          (hsub m rfl hb)
    | vNull => simpa [normV] using hb
    | vStr s => simpa [normV] using hb
    | vNat n => simpa [normV] using hb
    | vBytes b => simpa [normV] using hb
    | vList l => simpa [normV] using hb
    | vUtxoType u => simp [benignV] at hb
    | vBlockHash hh => simp [benignV] at hb
    | vBlockHashPtr hp => simp [benignV] at hb
    | vBlockNodePtr p => simp [benignV] at hb
    | vBigInt i => simp [benignV] at hb
    | vStakeEntry => simp [benignV] at hb
    | vPKIDPtr b => simp [benignV] at hb
  · intro h
    simpa [normE] using h
  · intro k v r hv hr hb
    simp only [benignE, Bool.and_eq_true, decide_eq_true_eq] at hb
    obtain ⟨⟨hk, hbv⟩, hbr⟩ := hb
    simp [normE, benignE, hk, hv hbv, hr hbr]

theorem benignE_normFull (t : String) (m : Entries)
    (h : benignE m = true) : benignE (normFull t m) = true := by
  rw [normFull]
  exact benignE_setKeyE _ _ _ (by decide) rfl (benignE_norm t m h)

theorem hasKey_normE (t : String) (k : String) (m : Entries) :
    (normE t m).hasKey k = m.hasKey k := by
  induction m using Entries.recE with
  | hnil => rfl
  | hcons k' v r ih => simp [normE, Entries.hasKey, ih]

theorem normE_append (t : String) (a b : Entries) :
    normE t (a.append b) = (normE t a).append (normE t b) := by
  induction a using Entries.recE with
  | hnil => rfl
  | hcons k v r ih => simp [normE, Entries.append, ih]

theorem normE_replaceAll (t : String) (k : String) (v : Value)
    (m : Entries) :
    normE t (m.replaceAll k v) =
      (normE t m).replaceAll k (normV t v) := by
  induction m using Entries.recE with
  | hnil => rfl
  | hcons k' v' r ih =>
      by_cases hk : k' = k
      · simp [normE, Entries.replaceAll, hk, ih]
      · simp [normE, Entries.replaceAll, hk, ih]

theorem normE_setKeyE_vStr (t : String) (k : String) (s : String)
    (m : Entries) :
    normE t (m.setKeyE k (.vStr s)) =
      (normE t m).setKeyE k (.vStr s) := by
  rw [Entries.setKeyE, Entries.setKeyE, hasKey_normE]
  by_cases h : m.hasKey k
  · simp only [h, if_true]
    rw [normE_replaceAll]
    rfl
  · simp only [h, if_false, Bool.false_eq_true]
    rw [normE_append]
    rfl

theorem hasKey_replaceAll (k k' : String) (v : Value) (m : Entries) :
    (m.replaceAll k v).hasKey k' = m.hasKey k' := by
  induction m using Entries.recE with
  | hnil => rfl
  | hcons k0 v0 r ih => simp [Entries.replaceAll, Entries.hasKey, ih]

theorem hasKey_append (k : String) (a b : Entries) :
    (a.append b).hasKey k = (a.hasKey k || b.hasKey k) := by
  induction a using Entries.recE with
  | hnil => simp [Entries.append, Entries.hasKey]
  | hcons k0 v0 r ih =>
      simp [Entries.append, Entries.hasKey, ih, Bool.or_assoc]

theorem hasKey_setKeyE_self (k : String) (v : Value) (m : Entries) :
    (m.setKeyE k v).hasKey k = true := by
  rw [Entries.setKeyE]
  by_cases h : m.hasKey k
  · simp [h, hasKey_replaceAll]
  · simp [h, hasKey_append, Entries.hasKey]

theorem replaceAll_replaceAll (k : String) (v w : Value) (m : Entries) :
    (m.replaceAll k w).replaceAll k v = m.replaceAll k v := by
  induction m using Entries.recE with
  | hnil => rfl
  | hcons k' v' r ih =>
      by_cases hk : k' = k
      · simp [Entries.replaceAll, hk, ih]
      · simp [Entries.replaceAll, hk, ih]

theorem replaceAll_append_fresh (k : String) (v w : Value) (m : Entries)
    (h : m.hasKey k = false) :
    (m.append (.cons k w .nil)).replaceAll k v =
      m.append (.cons k v .nil) := by
  induction m using Entries.recE with
  | hnil => simp [Entries.append, Entries.replaceAll]
  | hcons k' v' r ih =>
      simp only [Entries.hasKey, Bool.or_eq_false_iff,
        decide_eq_false_iff_not] at h
      simp [Entries.append, Entries.replaceAll, h.1, ih h.2]

theorem setKeyE_setKeyE (k : String) (v w : Value) (m : Entries) :
    (m.setKeyE k w).setKeyE k v = m.setKeyE k v := by
  simp only [Entries.setKeyE]
  by_cases h : m.hasKey k
  · simp [h, hasKey_replaceAll, replaceAll_replaceAll]
  · simp [h, hasKey_append, Entries.hasKey,
      replaceAll_append_fresh k v w m (by simpa using h)]

theorem norm_idem (t1 t2 : String) :
    ∀ m, normE t2 (normE t1 m) = normE t2 m := by
  refine @Entries.recVE
    (fun v => normV t2 (normV t1 v) = normV t2 v)
    (fun m => normE t2 (normE t1 m) = normE t2 m)
    ?_ ?_ ?_
  · intro v hsub
    cases v with
    | vMap m =>
        rw [normV, normV, normV, normE_setKeyE_vStr, hsub m rfl,
          setKeyE_setKeyE]
    | vNull => rfl
    | vStr s => rfl
    | vNat n => rfl
    | vBytes b => rfl
    | vList l => rfl
    | vUtxoType u => rfl
    | vBlockHash hh => rfl
    | vBlockHashPtr hp => rfl
    | vBlockNodePtr p => rfl
    | vBigInt i => rfl
    | vStakeEntry => rfl
    | vPKIDPtr b => rfl
  · rfl
  · intro k v r hv hr
    simp [normE, hv, hr]

theorem normFull_idem (t1 t2 : String) (m : Entries) :
    normFull t2 (normFull t1 m) = normFull t2 m := by
  rw [normFull, normFull, normFull, normE_setKeyE_vStr, norm_idem,
    setKeyE_setKeyE]

theorem simplifyEntry_PKID_vStr (d : Decoders) (t : String) (s : String) :
    simplifyEntry d t "PKID" (.vStr s) = .error () := by
  rw [simplifyEntry]
  simp only [Value.isNull, typeSwitch, Bind.bind, Except.bind]
  rw [keySwitch]
  simp [assertBytes, Bind.bind, Except.bind]

theorem c6_pkid_roundtrip_panics :
    simplifyFullE d0 "t1" (.cons "PKID" (.vBytes [1, 2, 3]) .nil) =
      .ok (.cons "PKID" (.vStr "pk") (.cons "Time" (.vStr "t1") .nil)) ∧
    simplifyFullE d0 "t2"
      (.cons "PKID" (.vStr "pk") (.cons "Time" (.vStr "t1") .nil)) =
      .error () := by
  constructor
  · rw [simplifyFullE, simplifyEntries_cons, simplifyEntry_PKID_bytes,
      simplifyEntries_nil]
    simp [Bind.bind, Except.bind, Entries.append, Entries.setKeyE,
      Entries.hasKey, d0]
  · rw [simplifyFullE, simplifyEntries_cons, simplifyEntry_PKID_vStr]
    simp [Bind.bind, Except.bind]

theorem c6_amended_roundtrip (d : Decoders) (t1 t2 : String) (m : Entries)
    (hb : benignE m = true) :
    ∃ m1, simplifyFullE d t1 m = .ok m1 ∧
      simplifyFullE d t2 m1 = simplifyFullE d t2 m := by
  refine ⟨normFull t1 m, simplifyFullE_benign d t1 m hb, ?_⟩
  rw [simplifyFullE_benign d t2 _ (benignE_normFull t1 m hb),
    simplifyFullE_benign d t2 m hb, normFull_idem]

theorem c6_amended_roundtrip_witness :
    benignE (.cons "Greeting" (.vStr "x") .nil) = true ∧
    ∃ m1, simplifyFullE d0 "t1" (.cons "Greeting" (.vStr "x") .nil) = .ok m1 ∧
      simplifyFullE d0 "t2" m1 =
        simplifyFullE d0 "t2" (.cons "Greeting" (.vStr "x") .nil) := by
  have hb : benignE (.cons "Greeting" (.vStr "x") .nil) = true := by
    rw [benignE, benignV, benignE]
    simp [keySwitchNames, pubKeyNames, textNames]
  exact ⟨hb, c6_amended_roundtrip d0 "t1" "t2" _ hb⟩
